import Mathlib

/-!
# gueditor uploader: a shallow embedding of `uploader.go`

Go strings, taken to be valid UTF-8 text, are modelled as lists of characters (`Str`), byte
slices as lists of bytes (`Bytes`), and Go `error` values as `Option String` (`none` is `nil`,
`some msg` is an error whose message is `msg`).

The parts of the Go standard library that the uploader calls are modelled next to
the code that calls them.  Three library facts are too large to transcribe and are
taken as parameters, bundled in `Lib`: the rune lower-casing table of package
`unicode`, the decoder `base64.StdEncoding.DecodeString` and the parser `url.Parse`.

The filesystem is a finite map from absolute component paths to nodes.  Paths are
resolved component by component as POSIX does; symbolic links, permission bits (the mode
argument `0666` of `MkdirAll`, `OpenFile` and `WriteFile` is ignored) and device errors are not
modelled.
-/

namespace Gueditor

abbrev Str := List Char
abbrev Bytes := List (Fin 256)
abbrev GoError := Option String

/-! ## Error messages (the `const` block of the source) -/

def SUCCESS : String := "SUCCESS"
def BIGGER_THAN_UPLOAD_MAX_FILESIZE : String := "文件大小超出 upload_max_filesize 限制"
def BIGGER_THAN_MAX_FILE_SIZE : String := "文件大小超出 MAX_FILE_SIZE 限制"
def FILE_NOT_COMPLETE : String := "文件未被完整上传"
def NO_FILE_UPLOAD : String := "没有文件被上传"
def UPLOAD_FILE_IS_EMPTY : String := "上传文件为空"
def ERROR_TMP_FILE : String := "临时文件错误"
def ERROR_TMP_FILE_NOT_FOUND : String := "找不到临时文件"
def ERROR_SIZE_EXCEED : String := "文件大小超出网站限制"
def ERROR_TYPE_NOT_ALLOWED : String := "文件类型不允许"
def ERROR_CREATE_DIR : String := "目录创建失败"
def ERROR_DIR_NOT_WRITEABLE : String := "目录没有写权限"
def ERROR_FILE_MOVE : String := "文件保存时出错"
def ERROR_FILE_NOT_FOUND : String := "找不到上传文件"
def ERROR_WRITE_CONTENT : String := "写入文件内容错误"
def ERROR_UNKNOWN : String := "未知错误"
def ERROR_DEAD_LINK : String := "链接不可用"
def ERROR_HTTP_LINK : String := "链接不是http链接"
def ERROR_HTTP_CONTENTTYPE : String := "链接contentType不正确"
def INVALID_URL : String := "非法 URL"
def INVALID_IP : String := "非法 IP"
def ERROR_BASE64_DATA : String := "base64图片解码错误"
def ERROR_FILE_STATE : String := "文件系统错误"
def ERRPR_READ_REMOTE_DATA : String := "读取远程链接出错"

/-- The fixed set of messages declared by the source. -/
def errorMessages : List String :=
  [SUCCESS, BIGGER_THAN_UPLOAD_MAX_FILESIZE, BIGGER_THAN_MAX_FILE_SIZE, FILE_NOT_COMPLETE,
   NO_FILE_UPLOAD, UPLOAD_FILE_IS_EMPTY, ERROR_TMP_FILE, ERROR_TMP_FILE_NOT_FOUND,
   ERROR_SIZE_EXCEED, ERROR_TYPE_NOT_ALLOWED, ERROR_CREATE_DIR, ERROR_DIR_NOT_WRITEABLE,
   ERROR_FILE_MOVE, ERROR_FILE_NOT_FOUND, ERROR_WRITE_CONTENT, ERROR_UNKNOWN, ERROR_DEAD_LINK,
   ERROR_HTTP_LINK, ERROR_HTTP_CONTENTTYPE, INVALID_URL, INVALID_IP, ERROR_BASE64_DATA,
   ERROR_FILE_STATE, ERRPR_READ_REMOTE_DATA]

/-! ## Library parameters -/

/-- The result of `url.Parse` as far as the uploader reads it. -/
structure URL where
  Scheme : Str
  Path : Str
deriving DecidableEq, Repr

/-- Standard-library facts taken as parameters. -/
structure Lib where
  /-- The rune map `unicode.ToLower`. -/
  unicodeToLower : Char → Char
  /-- The decoder `base64.StdEncoding.DecodeString`; `none` is a decode error. -/
  base64Decode : Str → Option Bytes
  /-- The parser `url.Parse`; `none` is a parse error. -/
  urlParse : Str → Option URL

/-! ## Package `strings` -/

/-- `strings.ToLower`: the rune map applied to every character. -/
def ToLower (lib : Lib) (s : Str) : Str := s.map lib.unicodeToLower

/-- `strings.Contains`. -/
def Contains : Str → Str → Bool
  | [], sub => sub.isEmpty
  | c :: cs, sub => sub.isPrefixOf (c :: cs) || Contains cs sub

/-- `strings.Count` for a non-empty pattern: the number of positions at which `old` starts. -/
def Count (old : Str) : Str → Nat
  | [] => 0
  | c :: cs => (if old.isPrefixOf (c :: cs) then 1 else 0) + Count old cs

/-- `strings.Replace(s, old, new, 1)`: the leftmost occurrence of `old` is replaced by `new`;
a string without an occurrence is returned unchanged. -/
def Replace1 (s old new : Str) : Str :=
  if old.isPrefixOf s then new ++ s.drop old.length
  else
    match s with
    | [] => []
    | c :: cs => c :: Replace1 cs old new

/-- `strings.Split(s, sep)` for a one-character separator, which is how the source calls it. -/
def Split (sep : Char) : Str → List Str
  | [] => [[]]
  | c :: cs =>
    if c = sep then [] :: Split sep cs
    else
      match Split sep cs with
      | [] => [[c]]
      | h :: t => (c :: h) :: t

/-! ## Package `strconv` and `time` -/

/-- The decimal digit character of a number below ten. -/
def digitChar (d : Nat) : Char := Char.ofNat (48 + d % 10)

/-- Decimal digits of a natural number, most significant first, by repeated division. -/
def decimalFuel : Nat → Nat → Str
  | 0, n => [digitChar n]
  | fuel + 1, n => if n < 10 then [digitChar n] else decimalFuel fuel (n / 10) ++ [digitChar n]

/-- Decimal representation of a natural number. -/
def decimal (n : Nat) : Str := decimalFuel n n

/-- `strconv.FormatInt(x, 10)`. -/
def FormatInt (x : Int) : Str :=
  if x < 0 then '-' :: decimal x.natAbs else decimal x.natAbs

/-- `appendInt` of package `time`: sign, zero padding up to `width`, decimal digits. -/
def appendInt (x : Int) (width : Nat) : Str :=
  (if x < 0 then ['-'] else []) ++
    List.replicate (width - (decimal x.natAbs).length) '0' ++ decimal x.natAbs

/-- A reading of the clock: the civil fields that `Format` prints (in the local zone) and the
`int64` returned by `UnixNano`. -/
structure Time where
  year : Int
  month : Nat
  day : Nat
  hour : Nat
  minute : Nat
  second : Nat
  unixNano : Int
  month_range : 1 ≤ month ∧ month ≤ 12
  day_range : 1 ≤ day ∧ day ≤ 31
  hour_range : hour < 24
  minute_range : minute < 60
  second_range : second < 60

/-- `t.Format("2006_01_02_15_04_05")`. -/
def Format (t : Time) : Str :=
  appendInt t.year 4 ++ '_' :: appendInt t.month 2 ++ '_' :: appendInt t.day 2 ++
    '_' :: appendInt t.hour 2 ++ '_' :: appendInt t.minute 2 ++ '_' :: appendInt t.second 2

/-! ## Package `path/filepath` (Unix) -/

/-- The backward scan of `filepath.Ext` over the reversed path. -/
def extScan : Str → Str → Str
  | [], _ => []
  | c :: rest, acc =>
    if c = '/' then [] else if c = '.' then '.' :: acc else extScan rest (c :: acc)

/-- `filepath.Ext`: the suffix beginning at the final dot in the final element of the path. -/
def Ext (path : Str) : Str := extScan path.reverse []

/-- Removes trailing separators, as the first loop of `filepath.Base` does. -/
def stripTrailingSep (path : Str) : Str := (path.reverse.dropWhile (· = '/')).reverse

/-- The characters after the last separator. -/
def lastElement (path : Str) : Str := (path.reverse.takeWhile (· ≠ '/')).reverse

/-- `filepath.Base`. -/
def Base (path : Str) : Str :=
  if path = [] then ['.']
  else
    let e := lastElement (stripTrailingSep path)
    if e = [] then ['/'] else e

/-- One step of `filepath.Clean` over the components of a path. -/
def cleanStep (rooted : Bool) (out : List Str) (c : Str) : List Str :=
  if c = [] ∨ c = ['.'] then out
  else if c = ['.', '.'] then
    match out.getLast? with
    | some l => if l = ['.', '.'] then out ++ [c] else out.dropLast
    | none => if rooted then out else out ++ [c]
  else out ++ [c]

/-- `filepath.Clean`. -/
def Clean (path : Str) : Str :=
  let rooted := path.head? = some '/'
  let body := List.intercalate ['/'] ((Split '/' path).foldl (cleanStep rooted) [])
  if rooted then '/' :: body else if body = [] then ['.'] else body

/-- `filepath.Dir`: everything up to the last separator, cleaned. -/
def Dir (path : Str) : Str := Clean (path.reverse.dropWhile (· ≠ '/')).reverse

/-! ## The uploader: parameters, gates and name generation -/

/-- The uploader configuration. -/
structure UploaderParams where
  PathFormat : Str
  MaxSize : Int
  FllowFiles : List Str
  OriName : Str

/-- `checkSize`: an error exactly when the size is above `MaxSize`. -/
def checkSize (up : UploaderParams) (fileSize : Int) : GoError :=
  if fileSize > up.MaxSize then some ERROR_SIZE_EXCEED else none

/-- The loop of `checkType`: is the lower-cased type equal to some list entry? -/
def checkTypeLoop (lib : Lib) (fileType : Str) : List Str → Bool
  | [] => false
  | fileTypeValid :: rest =>
    if ToLower lib fileType = fileTypeValid then true else checkTypeLoop lib fileType rest

/-- `checkType`. -/
def checkType (lib : Lib) (up : UploaderParams) (fileType : Str) : GoError :=
  let isvalid := checkTypeLoop lib fileType up.FllowFiles
  if !isvalid then some ERROR_TYPE_NOT_ALLOWED else none

/-- `getFullName`.  The source reads the clock twice: `timeNow` supplies the nanosecond
timestamp, `timeNow2` is the reading that is formatted. -/
def getFullName (up : UploaderParams) (timeNow timeNow2 : Time) (oriName : Str) : Str :=
  let timeNowFormat := Format timeNow2
  let timeArr := Split '_' timeNowFormat
  let format := up.PathFormat
  let format := Replace1 format "{yyyy}".toList (timeArr.getD 0 [])
  let format := Replace1 format "{mm}".toList (timeArr.getD 1 [])
  let format := Replace1 format "{dd}".toList (timeArr.getD 2 [])
  let format := Replace1 format "{hh}".toList (timeArr.getD 3 [])
  let format := Replace1 format "{ii}".toList (timeArr.getD 4 [])
  let format := Replace1 format "{ss}".toList (timeArr.getD 5 [])
  let timestamp := FormatInt timeNow.unixNano
  let format := Replace1 format "{time}".toList timestamp
  let ext := Ext oriName
  format ++ ext

/-! ## The filesystem and the world -/

/-- A filesystem node. -/
inductive Node where
  | dir
  | file (data : Bytes)
deriving DecidableEq, Repr

/-- An absolute path, as the list of its components below the root. -/
abbrev Key := List Str

/-- The method of an HTTP request. -/
inductive Method where
  | HEAD
  | GET
deriving DecidableEq, Repr

/-- The mutable world: working directory, filesystem contents and the log of the HTTP
requests issued so far (oldest first). -/
structure World where
  cwd : Key
  fs : List (Key × Node)
  requests : List (Method × Str)
deriving DecidableEq, Repr

/-- The outcome of resolving a path. -/
inductive Lookup where
  | found (k : Key) (n : Node)
  | absent (k : Key)
  | noent
  | notdir
deriving DecidableEq, Repr

/-- Resolution of the components of a path below the directory `cur`. -/
def walk (fs : List (Key × Node)) : Key → List Str → Lookup
  | cur, [] => Lookup.found cur Node.dir
  | cur, c :: rest =>
    if c = [] ∨ c = ['.'] then walk fs cur rest
    else if c = ['.', '.'] then walk fs cur.dropLast rest
    else
      match fs.lookup (cur ++ [c]) with
      | some Node.dir => walk fs (cur ++ [c]) rest
      | some (Node.file d) => if rest = [] then Lookup.found (cur ++ [c]) (Node.file d) else Lookup.notdir
      | none => if rest = [] then Lookup.absent (cur ++ [c]) else Lookup.noent

/-- Resolution of a path name; the empty name does not resolve. -/
def lookupPath (w : World) (path : Str) : Lookup :=
  if path = [] then Lookup.noent
  else walk w.fs (if path.head? = some '/' then [] else w.cwd) (Split '/' path)

/-- Binds a key to a node, replacing an earlier binding. -/
def setNode (fs : List (Key × Node)) (k : Key) (n : Node) : List (Key × Node) :=
  (k, n) :: fs.filter (fun e => decide (e.1 ≠ k))

/-- Modelled from the spec: `pathExists`, which the source calls and does not define.  It
reports whether the path exists; a path that is merely missing is no error, a path whose
status cannot be determined (a component that is not a directory) is one. -/
def pathExists (w : World) (path : Str) : Bool × GoError :=
  match lookupPath w path with
  | Lookup.found _ _ => (true, none)
  | Lookup.absent _ => (false, none)
  | Lookup.noent => (false, none)
  | Lookup.notdir => (false, some "not a directory")

/-- The directory-creating walk of `os.MkdirAll`: every missing component is created; a
regular file in the way stops it. -/
def mkdirWalk (fs : List (Key × Node)) : Key → List Str → List (Key × Node) × Bool
  | _, [] => (fs, true)
  | cur, c :: rest =>
    if c = [] ∨ c = ['.'] then mkdirWalk fs cur rest
    else if c = ['.', '.'] then mkdirWalk fs cur.dropLast rest
    else
      match fs.lookup (cur ++ [c]) with
      | some Node.dir => mkdirWalk fs (cur ++ [c]) rest
      | some (Node.file _) => (fs, false)
      | none => mkdirWalk (setNode fs (cur ++ [c]) Node.dir) (cur ++ [c]) rest

/-- `os.MkdirAll(path, 0666)`. -/
def MkdirAll (w : World) (path : Str) : World × GoError :=
  if path = [] then (w, some "mkdir: no such file or directory")
  else
    let r := mkdirWalk w.fs (if path.head? = some '/' then [] else w.cwd) (Split '/' path)
    ({ w with fs := r.1 }, if r.2 then none else some "mkdir: not a directory")

/-- `os.OpenFile(name, os.O_WRONLY | os.O_RDONLY, 0666)`: the flags carry no `O_CREATE` and no
`O_TRUNC`, so only an existing regular file can be opened.  The result is the opened file. -/
def OpenFile (w : World) (name : Str) : Option Key :=
  match lookupPath w name with
  | Lookup.found k (Node.file _) => some k
  | _ => none

/-- A `multipart.File` seen as a reader: the bytes it still delivers and the error, if any,
with which reading ends instead of end-of-file. -/
structure FileStream where
  content : Bytes
  readError : Option String
deriving DecidableEq, Repr

/-- A `multipart.FileHeader`. -/
structure FileHeader where
  Filename : Str
  Size : Int
deriving DecidableEq, Repr

/-- `io.Copy(dstFile, file)` into a file opened at offset zero without truncation: the bytes
read replace the beginning of the old contents. -/
def ioCopy (w : World) (dst : Key) (file : FileStream) : World × GoError :=
  let old := match w.fs.lookup dst with
    | some (Node.file d) => d
    | _ => []
  ({ w with fs := setNode w.fs dst (Node.file (file.content ++ old.drop file.content.length)) },
    file.readError)

/-- `ioutil.WriteFile(name, data, 0666)`: creates the file or truncates an existing one. -/
def WriteFile (w : World) (name : Str) (data : Bytes) : World × GoError :=
  match lookupPath w name with
  | Lookup.found k (Node.file _) => ({ w with fs := setNode w.fs k (Node.file data) }, none)
  | Lookup.absent k => ({ w with fs := setNode w.fs k (Node.file data) }, none)
  | Lookup.found _ Node.dir => (w, some "open: is a directory")
  | Lookup.noent => (w, some "open: no such file or directory")
  | Lookup.notdir => (w, some "open: not a directory")

/-- The node found at a path name, if it resolves. -/
def nodeAt (w : World) (path : Str) : Option Node :=
  match lookupPath w path with
  | Lookup.found _ n => some n
  | _ => none

/-! ## The remote side -/

/-- What the uploader reads of the response to a HEAD request. -/
structure HeadResponse where
  StatusCode : Nat
  ContentType : Option Str

/-- What the uploader reads of the response to a GET request: the status and the outcome of
`ioutil.ReadAll(resp.Body)`. -/
structure GetResponse where
  StatusCode : Nat
  Body : Except String Bytes

/-- The remote servers: the answer to each request, `none` when the request itself fails. -/
structure Remote where
  head : Str → Option HeadResponse
  get : Str → Option GetResponse

/-- Records an issued request. -/
def logRequest (w : World) (m : Method) (url : Str) : World :=
  { w with requests := w.requests ++ [(m, url)] }

/-! ## The three entry points -/

/-- `UpFile`. -/
def UpFile (lib : Lib) (up : UploaderParams) (timeNow timeNow2 : Time) (w : World)
    (file : Option FileStream) (handle : Option FileHeader) : GoError × World :=
  match file, handle with
  | some file, some handle =>
    match checkSize up handle.Size with
    | some err => (some err, w)
    | none =>
    let ext := Ext handle.Filename
    match checkType lib up ext with
    | some err => (some err, w)
    | none =>
    let fullName := getFullName up timeNow timeNow2 handle.Filename
    let fileDir := Dir fullName
    match pathExists w fileDir with
    | (_, some _) => (some ERROR_FILE_STATE, w)
    | (pathExist, none) =>
    match (if !pathExist then MkdirAll w fileDir else (w, none)) with
    | (w1, some _) => (some ERROR_CREATE_DIR, w1)
    | (w1, none) =>
    match OpenFile w1 fullName with
    | none => (some ERROR_DIR_NOT_WRITEABLE, w1)
    | some dstFile =>
    match ioCopy w1 dstFile file with
    | (w2, some _) => (some ERROR_WRITE_CONTENT, w2)
    | (w2, none) => (none, w2)
  | _, _ => (some UPLOAD_FILE_IS_EMPTY, w)

/-- `UpBase64`. -/
def UpBase64 (lib : Lib) (up : UploaderParams) (timeNow timeNow2 : Time) (w : World)
    (fileName base64data : Str) : GoError × World :=
  match lib.base64Decode base64data with
  | none => (some ERROR_BASE64_DATA, w)
  | some imgData =>
    let fileSize : Int := imgData.length
    match checkSize up fileSize with
    | some err => (some err, w)
    | none =>
    let ext := Ext fileName
    match checkType lib up ext with
    | some err => (some err, w)
    | none =>
    let fullName := getFullName up timeNow timeNow2 fileName
    let fileDir := Dir fullName
    match pathExists w fileDir with
    | (_, some _) => (some ERROR_FILE_STATE, w)
    | (pathExist, none) =>
    match (if !pathExist then MkdirAll w fileDir else (w, none)) with
    | (w1, some _) => (some ERROR_CREATE_DIR, w1)
    | (w1, none) =>
    match WriteFile w1 fullName imgData with
    | (w2, some _) => (some ERROR_WRITE_CONTENT, w2)
    | (w2, none) => (none, w2)

/-- `SaveRemote`.  When reading the body fails the source builds the message
`ERRPR_READ_REMOTE_DATA`, discards it, and returns the error of `ReadAll` itself. -/
def SaveRemote (lib : Lib) (up : UploaderParams) (timeNow timeNow2 : Time) (net : Remote)
    (w : World) (remoteUrl : Str) : GoError × World :=
  match lib.urlParse remoteUrl with
  | none => (some INVALID_URL, w)
  | some urlObj =>
    let scheme := ToLower lib urlObj.Scheme
    if scheme ≠ "http".toList ∧ scheme ≠ "https".toList then (some ERROR_HTTP_LINK, w)
    else
    let ext := Ext urlObj.Path
    match checkType lib up ext with
    | some err => (some err, w)
    | none =>
    let fullName := getFullName up timeNow timeNow2 (Base urlObj.Path)
    let fileDir := Dir fullName
    match pathExists w fileDir with
    | (_, some _) => (some ERROR_FILE_STATE, w)
    | (pathExist, none) =>
    match (if !pathExist then MkdirAll w fileDir else (w, none)) with
    | (w1, some _) => (some ERROR_CREATE_DIR, w1)
    | (w1, none) =>
    let w2 := logRequest w1 Method.HEAD remoteUrl
    match net.head remoteUrl with
    | none => (some ERROR_DEAD_LINK, w2)
    | some headResp =>
    if headResp.StatusCode ≠ 200 then (some ERROR_DEAD_LINK, w2)
    else
    let contentType := headResp.ContentType.getD []
    if !Contains (ToLower lib contentType) "image".toList then (some ERROR_HTTP_CONTENTTYPE, w2)
    else
    let w3 := logRequest w2 Method.GET remoteUrl
    match net.get remoteUrl with
    | none => (some ERROR_DEAD_LINK, w3)
    | some resp =>
    if resp.StatusCode ≠ 200 then (some ERROR_DEAD_LINK, w3)
    else
    match resp.Body with
    | Except.error readErr => (some readErr, w3)
    | Except.ok data =>
    match WriteFile w3 fullName data with
    | (w4, some _) => (some ERROR_WRITE_CONTENT, w4)
    | (w4, none) => (none, w4)

/-! ## A concrete library instance, used to evaluate the model on concrete inputs -/

/-- The value of a character of the standard base64 alphabet. -/
def b64Value (c : Char) : Option Nat :=
  let n := c.toNat
  if 65 ≤ n ∧ n ≤ 90 then some (n - 65)
  else if 97 ≤ n ∧ n ≤ 122 then some (n - 71)
  else if 48 ≤ n ∧ n ≤ 57 then some (n + 4)
  else if n = 43 then some 62
  else if n = 47 then some 63
  else none

/-- The byte with the given value modulo 256. -/
def byteOf (n : Nat) : Fin 256 := ⟨n % 256, Nat.mod_lt _ (by decide)⟩

/-- Decoding of padded base64 text, four characters at a time. -/
def b64Quads : Nat → Str → Option Bytes
  | _, [] => some []
  | 0, _ => none
  | fuel + 1, a :: b :: c :: d :: rest =>
    match b64Value a, b64Value b with
    | some x, some y =>
      if c = '=' ∧ d = '=' ∧ rest = [] then some [byteOf ((x * 64 + y) / 16)]
      else
        match b64Value c with
        | none => none
        | some z =>
          if d = '=' ∧ rest = [] then
            some [byteOf ((x * 4096 + y * 64 + z) / 1024), byteOf ((x * 4096 + y * 64 + z) / 4)]
          else
            match b64Value d, b64Quads fuel rest with
            | some v, some more =>
              let n := x * 262144 + y * 4096 + z * 64 + v
              some (byteOf (n / 65536) :: byteOf (n / 256) :: byteOf n :: more)
            | _, _ => none
    | _, _ => none
  | _ + 1, _ => none

/-- A parser for URLs of the shape `scheme://host/path`; text without `://` is a bare path,
text with a blank does not parse. -/
def parseSimple : Str → Str → Option URL
  | _, [] => none
  | acc, ':' :: '/' :: '/' :: rest =>
    if ' ' ∈ rest then none else some ⟨acc.reverse, rest.dropWhile (· ≠ '/')⟩
  | acc, c :: rest => if c = ' ' then none else parseSimple (c :: acc) rest

/-- ASCII lower-casing, an RFC 4648 decoder that skips line breaks, and the simple parser. -/
def sampleLib : Lib where
  unicodeToLower := Char.toLower
  base64Decode := fun s =>
    let t := s.filter (fun c => c ≠ '\n' ∧ c ≠ '\r')
    b64Quads t.length t
  urlParse := fun s => match parseSimple [] s with
    | some u => some u
    | none => if ' ' ∈ s then none else some ⟨[], s⟩

/-! ## Notions used to state the properties -/

/-- Membership in the allowed list under case-insensitive comparison: some entry has the same
lower-casing as `e`. -/
def memIgnoreCase (lib : Lib) (e : Str) (allowed : List Str) : Prop :=
  ∃ a ∈ allowed, ToLower lib a = ToLower lib e

/-- The suffix of a name that starts at its last dot; empty when the name has no dot. -/
def fromLastDot : Str → Str
  | [] => []
  | c :: cs => if '.' ∈ cs then fromLastDot cs else if c = '.' then c :: cs else []

/-- Two decimal digits, zero padded. -/
def twoDigits (n : Nat) : Str := [digitChar (n / 10), digitChar n]

/-- Four decimal digits, zero padded. -/
def fourDigits (n : Nat) : Str :=
  [digitChar (n / 1000), digitChar (n / 100), digitChar (n / 10), digitChar n]

/-- The seven placeholder tokens. -/
def placeholders : List Str :=
  ["{yyyy}".toList, "{mm}".toList, "{dd}".toList, "{hh}".toList, "{ii}".toList, "{ss}".toList,
   "{time}".toList]

/-- The seven substitutions of `getFullName`, in source order: token and substituted value. -/
def substitutions (timeNow timeNow2 : Time) : List (Str × Str) :=
  [("{yyyy}".toList, appendInt timeNow2.year 4), ("{mm}".toList, appendInt timeNow2.month 2),
   ("{dd}".toList, appendInt timeNow2.day 2), ("{hh}".toList, appendInt timeNow2.hour 2),
   ("{ii}".toList, appendInt timeNow2.minute 2), ("{ss}".toList, appendInt timeNow2.second 2),
   ("{time}".toList, FormatInt timeNow.unixNano)]

/-- The characters that a substituted value can contain: decimal digits and the minus sign. -/
def isValueChar (c : Char) : Bool := c.isDigit || c == '-'

/-- One substitution step. -/
def substStep (s : Str) (p : Str × Str) : Str := Replace1 s p.1 p.2

/-- The directory gate shared by the three entry points: `pathExists` on the parent
directory, then `MkdirAll` when it is missing.  `some w1` is the world in which the gate was
passed. -/
def dirGate (w : World) (fileDir : Str) : Option World :=
  match pathExists w fileDir with
  | (_, some _) => none
  | (pathExist, none) =>
    match (if !pathExist then MkdirAll w fileDir else (w, none)) with
    | (_, some _) => none
    | (w1, none) => some w1

/-! ## Concrete inputs -/

/-- A configuration whose template holds each of the seven placeholders once. -/
def fullTemplateParams : UploaderParams :=
  ⟨"up/{yyyy}/{mm}/{dd}/{hh}{ii}{ss}_{time}".toList, 4, [".jpg".toList], []⟩

/-- The fifth of March 2024, 07:08:09. -/
def sampleTime : Time :=
  ⟨2024, 3, 5, 7, 8, 9, 1709622489000000123, by decide, by decide, by decide, by decide,
    by decide⟩

/-- A world whose working directory `/srv` is empty. -/
def sampleWorld : World := ⟨["srv".toList], [(["srv".toList], Node.dir)], []⟩

/-- A configuration with a dated path template, a limit of four bytes and `.png` allowed. -/
def sampleParams : UploaderParams := ⟨"upload/{yyyy}{mm}/{time}".toList, 4, [".png".toList], []⟩

/-- The URL of a remote picture. -/
def sampleUrl : Str := "http://h.example/a/b.png".toList

/-- A server that answers HEAD with `200` and `image/png`, and GET with `200` and six bytes. -/
def sampleRemote : Remote :=
  ⟨fun _ => some ⟨200, some "image/png".toList⟩, fun _ => some ⟨200, Except.ok [1, 2, 3, 4, 5, 6]⟩⟩

/-- A server that answers HEAD with `200` and `image/png`, and GET with `200` and three bytes,
a body within the limit of `flatParams`. -/
def smallRemote : Remote :=
  ⟨fun _ => some ⟨200, some "image/png".toList⟩, fun _ => some ⟨200, Except.ok [1, 2, 3]⟩⟩

/-- A server like `sampleRemote` whose body breaks off while it is read. -/
def brokenBodyRemote : Remote :=
  ⟨fun _ => some ⟨200, some "image/png".toList⟩, fun _ => some ⟨200, Except.error "unexpected EOF"⟩⟩

/-- A configuration whose template has no placeholder and no directory. -/
def flatParams : UploaderParams := ⟨"pic".toList, 4, [".png".toList], []⟩

/-- A world in which `/srv/pic.png` is a directory. -/
def occupiedWorld : World :=
  ⟨["srv".toList], [(["srv".toList], Node.dir), (["srv".toList, "pic.png".toList], Node.dir)], []⟩

/-- A world in which `/srv/pic.png` is a file holding the five bytes `hello`. -/
def uploadedWorld : World :=
  ⟨["srv".toList],
   [(["srv".toList, "pic.png".toList], Node.file [104, 101, 108, 108, 111]),
    (["srv".toList], Node.dir)], []⟩

/-- A configuration whose template names one directory. -/
def dirParams : UploaderParams := ⟨"upload/{time}".toList, 4, [".png".toList], []⟩

/-- A server that answers HEAD with `404`. -/
def deadRemote : Remote :=
  ⟨fun _ => some ⟨404, some "image/png".toList⟩, fun _ => some ⟨200, Except.ok [1, 2, 3]⟩⟩

/-- A server that answers HEAD with `200` and `text/html`. -/
def htmlRemote : Remote :=
  ⟨fun _ => some ⟨200, some "text/html".toList⟩, fun _ => some ⟨200, Except.ok [1, 2, 3]⟩⟩

/-! ## The gates -/

theorem checkSize_some {up : UploaderParams} {s : Int} {e : String}
    (h : checkSize up s = some e) : e = ERROR_SIZE_EXCEED := by
  unfold checkSize at h
  split at h
  · exact (Option.some.inj h).symm
  · exact absurd h (by simp)

theorem checkSize_of_gt {up : UploaderParams} {s : Int} (h : s > up.MaxSize) :
    checkSize up s = some ERROR_SIZE_EXCEED := by
  simp [checkSize, h]

theorem checkSize_of_le {up : UploaderParams} {s : Int} (h : s ≤ up.MaxSize) :
    checkSize up s = none := by
  simp [checkSize, not_lt.mpr h]

theorem checkTypeLoop_iff (lib : Lib) (e : Str) (l : List Str) :
    checkTypeLoop lib e l = true ↔ ToLower lib e ∈ l := by
  induction l with
  | nil => simp [checkTypeLoop]
  | cons a l ih =>
    unfold checkTypeLoop
    by_cases h : ToLower lib e = a
    · simp [h]
    · simp [h, ih]

theorem checkType_none_iff (lib : Lib) (up : UploaderParams) (e : Str) :
    checkType lib up e = none ↔ ToLower lib e ∈ up.FllowFiles := by
  unfold checkType
  rw [← checkTypeLoop_iff]
  cases checkTypeLoop lib e up.FllowFiles <;> simp

theorem checkType_some {lib : Lib} {up : UploaderParams} {x : Str} {e : String}
    (h : checkType lib up x = some e) : e = ERROR_TYPE_NOT_ALLOWED := by
  unfold checkType at h
  cases hl : checkTypeLoop lib x up.FllowFiles <;> simp [hl] at h
  exact h.symm

theorem checkType_error_iff (lib : Lib) (up : UploaderParams) (e : Str) :
    checkType lib up e = some ERROR_TYPE_NOT_ALLOWED ↔ ToLower lib e ∉ up.FllowFiles := by
  rw [← checkType_none_iff]
  cases h : checkType lib up e with
  | none => simp
  | some m => simp [checkType_some h]

/-- C1: in `UpFile` (file and header present) and in `UpBase64` (data that decodes) a content
size strictly above `MaxSize` yields `ERROR_SIZE_EXCEED` and leaves the world untouched, whatever
the extension is; at a size equal to `MaxSize` the size gate `checkSize` returns no error, and
no size up to `MaxSize` makes either entry point answer `ERROR_SIZE_EXCEED`. -/
theorem C1_size_gate_boundary (lib : Lib) (up : UploaderParams) (timeNow timeNow2 : Time)
    (w : World) (file : FileStream) (handle : FileHeader) (fileName base64data : Str)
    (imgData : Bytes) :
    (handle.Size > up.MaxSize →
      UpFile lib up timeNow timeNow2 w (some file) (some handle) = (some ERROR_SIZE_EXCEED, w)) ∧
    (lib.base64Decode base64data = some imgData → (imgData.length : Int) > up.MaxSize →
      UpBase64 lib up timeNow timeNow2 w fileName base64data = (some ERROR_SIZE_EXCEED, w)) ∧
    checkSize up up.MaxSize = none ∧
    (handle.Size ≤ up.MaxSize →
      (UpFile lib up timeNow timeNow2 w (some file) (some handle)).1 ≠ some ERROR_SIZE_EXCEED) ∧
    (lib.base64Decode base64data = some imgData → (imgData.length : Int) ≤ up.MaxSize →
      (UpBase64 lib up timeNow timeNow2 w fileName base64data).1 ≠ some ERROR_SIZE_EXCEED) := by
  refine ⟨?_, ?_, checkSize_of_le le_rfl, ?_, ?_⟩
  · intro h
    simp [UpFile, checkSize_of_gt h]
  · intro hd h
    simp [UpBase64, hd, checkSize_of_gt h]
  · intro h
    simp only [UpFile, checkSize_of_le h]
    split
    · rename_i err he
      rw [checkType_some he]; dsimp only; decide
    · split
      · dsimp only; decide
      · split
        · dsimp only; decide
        · split
          · dsimp only; decide
          · split
            · dsimp only; decide
            · simp
  · intro hd h
    simp only [UpBase64, hd, checkSize_of_le h]
    split
    · rename_i err he
      rw [checkType_some he]; dsimp only; decide
    · split
      · dsimp only; decide
      · split
        · dsimp only; decide
        · split
          · dsimp only; decide
          · simp

/-- C1, applied: five bytes against a limit of four are refused by both entry points. -/
theorem C1_size_gate_boundary_witness :
    UpFile sampleLib sampleParams sampleTime sampleTime sampleWorld
        (some ⟨[1, 2, 3, 4, 5], none⟩) (some ⟨"x.png".toList, 5⟩)
      = (some ERROR_SIZE_EXCEED, sampleWorld) ∧
    UpBase64 sampleLib sampleParams sampleTime sampleTime sampleWorld "x.png".toList
        "aGVsbG8=".toList = (some ERROR_SIZE_EXCEED, sampleWorld) ∧
    (UpFile sampleLib sampleParams sampleTime sampleTime sampleWorld
        (some ⟨[1, 2, 3, 4], none⟩) (some ⟨"x.png".toList, 4⟩)).1 ≠ some ERROR_SIZE_EXCEED ∧
    (UpBase64 sampleLib sampleParams sampleTime sampleTime sampleWorld "x.png".toList
        "aGVsbA==".toList).1 ≠ some ERROR_SIZE_EXCEED :=
  ⟨(C1_size_gate_boundary sampleLib sampleParams sampleTime sampleTime sampleWorld
      ⟨[1, 2, 3, 4, 5], none⟩ ⟨"x.png".toList, 5⟩ [] [] []).1 (by decide),
   (C1_size_gate_boundary sampleLib sampleParams sampleTime sampleTime sampleWorld
      ⟨[], none⟩ ⟨[], 0⟩ "x.png".toList "aGVsbG8=".toList [104, 101, 108, 108, 111]).2.1
      (by decide) (by decide),
   (C1_size_gate_boundary sampleLib sampleParams sampleTime sampleTime sampleWorld
      ⟨[1, 2, 3, 4], none⟩ ⟨"x.png".toList, 4⟩ [] [] []).2.2.2.1 (by decide),
   (C1_size_gate_boundary sampleLib sampleParams sampleTime sampleTime sampleWorld
      ⟨[], none⟩ ⟨[], 0⟩ "x.png".toList "aGVsbA==".toList [104, 101, 108, 108]).2.2.2.2
      (by decide) (by decide)⟩

/-- C2 as stated fails: with the allowed list `[".JPG"]` the extension `.JPG` is in the list,
yet `checkType` refuses it, because only the input is lower-cased before the comparison. -/
theorem C2_any_list_counterexample :
    ¬ (∀ (lib : Lib) (up : UploaderParams) (e : Str),
        (checkType lib up e = some ERROR_TYPE_NOT_ALLOWED ↔ ¬ memIgnoreCase lib e up.FllowFiles) ∧
        (checkType lib up e = none ↔ memIgnoreCase lib e up.FllowFiles)) := by
  intro h
  have h1 := (h sampleLib ⟨[], 0, [".JPG".toList], []⟩ ".JPG".toList).1
  have h2 : checkType sampleLib ⟨[], 0, [".JPG".toList], []⟩ ".JPG".toList
      = some ERROR_TYPE_NOT_ALLOWED := by decide
  exact h1.mp h2 ⟨".JPG".toList, by simp, rfl⟩

/-- C2, amended: when every entry of the allowed list is lower case, `checkType` returns
`ERROR_TYPE_NOT_ALLOWED` exactly when the extension is not in the list under case-insensitive
comparison and no error otherwise, and every case variant of an allowed entry is accepted. -/
theorem C2_checkType_lowercase_list (lib : Lib) (up : UploaderParams) (e : Str)
    (hlow : ∀ a ∈ up.FllowFiles, ToLower lib a = a) :
    (checkType lib up e = some ERROR_TYPE_NOT_ALLOWED ↔ ¬ memIgnoreCase lib e up.FllowFiles) ∧
    (checkType lib up e = none ↔ memIgnoreCase lib e up.FllowFiles) ∧
    (∀ a ∈ up.FllowFiles, ∀ v : Str, ToLower lib v = ToLower lib a →
      checkType lib up v = none) := by
  have key : ∀ x : Str, ToLower lib x ∈ up.FllowFiles ↔ memIgnoreCase lib x up.FllowFiles := by
    intro x
    constructor
    · intro hx
      exact ⟨ToLower lib x, hx, hlow _ hx⟩
    · rintro ⟨a, ha, hax⟩
      rw [← hax, hlow a ha]
      exact ha
  refine ⟨?_, ?_, ?_⟩
  · rw [checkType_error_iff, key]
  · rw [checkType_none_iff, key]
  · intro a ha v hv
    rw [checkType_none_iff, hv, hlow a ha]
    exact ha

/-- C2, amended, applied: with `[".jpg"]` allowed, `.JPG` is accepted. -/
theorem C2_checkType_lowercase_list_witness :
    checkType sampleLib ⟨[], 0, [".jpg".toList], []⟩ ".JPG".toList = none :=
  (C2_checkType_lowercase_list sampleLib ⟨[], 0, [".jpg".toList], []⟩ ".JPG".toList
    (by decide)).2.2 ".jpg".toList (by decide) ".JPG".toList (by decide)

/-- C8: a string that `base64.StdEncoding.DecodeString` rejects makes `UpBase64` return
`ERROR_BASE64_DATA` with the world untouched, for every file name, size limit and allowed list;
that error is neither `ERROR_SIZE_EXCEED` nor `ERROR_TYPE_NOT_ALLOWED`. -/
theorem C8_base64_decode_gate_first (lib : Lib) (up : UploaderParams) (timeNow timeNow2 : Time)
    (w : World) (fileName base64data : Str) (h : lib.base64Decode base64data = none) :
    UpBase64 lib up timeNow timeNow2 w fileName base64data = (some ERROR_BASE64_DATA, w) ∧
    ERROR_BASE64_DATA ≠ ERROR_SIZE_EXCEED ∧ ERROR_BASE64_DATA ≠ ERROR_TYPE_NOT_ALLOWED := by
  refine ⟨?_, by decide, by decide⟩
  simp [UpBase64, h]

/-- C8, applied: text outside the base64 alphabet, with a limit that no size meets and no
extension allowed. -/
theorem C8_base64_decode_gate_first_witness :
    UpBase64 sampleLib ⟨"pic".toList, -1, [], []⟩ sampleTime sampleTime sampleWorld
        "x.exe".toList "!!!!".toList = (some ERROR_BASE64_DATA, sampleWorld) :=
  (C8_base64_decode_gate_first sampleLib ⟨"pic".toList, -1, [], []⟩ sampleTime sampleTime
    sampleWorld "x.exe".toList "!!!!".toList (by decide)).1

/-- C9 as stated fails: a file that is present and empty (size 0) with a refused extension is
answered with `ERROR_TYPE_NOT_ALLOWED`, not with `UPLOAD_FILE_IS_EMPTY`. -/
theorem C9_empty_content_counterexample :
    ¬ (∀ (lib : Lib) (up : UploaderParams) (timeNow timeNow2 : Time) (w : World)
        (file : Option FileStream) (handle : Option FileHeader),
        (file = none ∨ handle = none ∨
          ∃ f h, file = some f ∧ handle = some h ∧ f.content = [] ∧ h.Size = 0) →
        (UpFile lib up timeNow timeNow2 w file handle).1 = some UPLOAD_FILE_IS_EMPTY) := by
  intro h
  have h1 := h sampleLib sampleParams sampleTime sampleTime sampleWorld (some ⟨[], none⟩)
    (some ⟨"a.exe".toList, 0⟩) (Or.inr (Or.inr ⟨_, _, rfl, rfl, rfl, rfl⟩))
  revert h1
  decide

/-- C9, amended: `UpFile` answers `UPLOAD_FILE_IS_EMPTY`, with the world untouched and before
the size and type gates, when the file or the header is missing, and only then. -/
theorem C9_missing_file_is_empty (lib : Lib) (up : UploaderParams) (timeNow timeNow2 : Time)
    (w : World) (file : Option FileStream) (handle : Option FileHeader) :
    ((file = none ∨ handle = none) →
      UpFile lib up timeNow timeNow2 w file handle = (some UPLOAD_FILE_IS_EMPTY, w)) ∧
    ((UpFile lib up timeNow timeNow2 w file handle).1 = some UPLOAD_FILE_IS_EMPTY →
      file = none ∨ handle = none) := by
  constructor
  · rintro (h | h)
    · subst h; cases handle <;> rfl
    · subst h; cases file <;> rfl
  · intro h
    cases file with
    | none => exact Or.inl rfl
    | some f =>
      cases handle with
      | none => exact Or.inr rfl
      | some hd =>
        exfalso
        revert h
        simp only [UpFile]
        split
        · rename_i err he
          rw [checkSize_some he]; dsimp only; decide
        · split
          · rename_i err he
            rw [checkType_some he]; dsimp only; decide
          · split
            · dsimp only; decide
            · split
              · dsimp only; decide
              · split
                · dsimp only; decide
                · split
                  · dsimp only; decide
                  · simp

/-- C9, amended, applied: no file, a header above the size limit with a refused extension. -/
theorem C9_missing_file_is_empty_witness :
    UpFile sampleLib sampleParams sampleTime sampleTime sampleWorld none
        (some ⟨"a.exe".toList, 5⟩) = (some UPLOAD_FILE_IS_EMPTY, sampleWorld) ∧
    ((none : Option FileStream) = none ∨ some (⟨"a.exe".toList, 5⟩ : FileHeader) = none) :=
  ⟨(C9_missing_file_is_empty sampleLib sampleParams sampleTime sampleTime sampleWorld none
      (some ⟨"a.exe".toList, 5⟩)).1 (Or.inl rfl),
   (C9_missing_file_is_empty sampleLib sampleParams sampleTime sampleTime sampleWorld none
      (some ⟨"a.exe".toList, 5⟩)).2 (by decide)⟩

/-- C4, the code at the failing input: for a three-byte `x.png` whose destination `pic.png` in
the existing directory `/srv` does not exist yet, `UpFile` passes the gates and then answers
`ERROR_DIR_NOT_WRITEABLE` with the world unchanged, because the destination is opened without
`O_CREATE`.  With the template `upload/{time}` the missing directory `upload` is created and the
same error follows, no file being created.  `UpBase64`, for the same destination `pic.png`,
creates the file.  Onto an existing five-byte `pic.png`, `UpFile` with two bytes succeeds and
leaves the last three old bytes in place, because the file is not truncated. -/
theorem C4_UpFile_fresh_destination_fails :
    getFullName flatParams sampleTime sampleTime "x.png".toList = "pic.png".toList ∧
    UpFile sampleLib flatParams sampleTime sampleTime sampleWorld
        (some ⟨[1, 2, 3], none⟩) (some ⟨"x.png".toList, 3⟩)
      = (some ERROR_DIR_NOT_WRITEABLE, sampleWorld) ∧
    (UpFile sampleLib dirParams sampleTime sampleTime sampleWorld
        (some ⟨[1, 2, 3], none⟩) (some ⟨"x.png".toList, 3⟩)).1 = some ERROR_DIR_NOT_WRITEABLE ∧
    nodeAt (UpFile sampleLib dirParams sampleTime sampleTime sampleWorld
        (some ⟨[1, 2, 3], none⟩) (some ⟨"x.png".toList, 3⟩)).2 "upload".toList
      = some Node.dir ∧
    nodeAt (UpFile sampleLib dirParams sampleTime sampleTime sampleWorld
        (some ⟨[1, 2, 3], none⟩) (some ⟨"x.png".toList, 3⟩)).2
        "upload/1709622489000000123.png".toList = none ∧
    (UpBase64 sampleLib flatParams sampleTime sampleTime sampleWorld "x.png".toList
        "AQID".toList).1 = none ∧
    nodeAt (UpBase64 sampleLib flatParams sampleTime sampleTime sampleWorld "x.png".toList
        "AQID".toList).2 "pic.png".toList = some (Node.file [1, 2, 3]) ∧
    (UpFile sampleLib flatParams sampleTime sampleTime uploadedWorld
        (some ⟨[1, 2], none⟩) (some ⟨"x.png".toList, 2⟩)).1 = none ∧
    nodeAt (UpFile sampleLib flatParams sampleTime sampleTime uploadedWorld
        (some ⟨[1, 2], none⟩) (some ⟨"x.png".toList, 2⟩)).2 "pic.png".toList
      = some (Node.file [1, 2, 108, 108, 111]) := by
  refine ⟨?_, ?_, ?_, ?_, ?_, ?_, ?_, ?_, ?_⟩ <;> decide

/-- C5, the code at the failing input: when the body of a picture that passed every earlier
gate breaks off with `unexpected EOF`, `SaveRemote` returns that very error, which is neither
`ERRPR_READ_REMOTE_DATA` nor any message of the fixed set; no file is written. -/
theorem C5_SaveRemote_read_error_passes_through :
    (SaveRemote sampleLib flatParams sampleTime sampleTime brokenBodyRemote sampleWorld
        sampleUrl).1 = some "unexpected EOF" ∧
    "unexpected EOF" ≠ ERRPR_READ_REMOTE_DATA ∧
    "unexpected EOF" ∉ errorMessages ∧
    (SaveRemote sampleLib flatParams sampleTime sampleTime brokenBodyRemote sampleWorld
        sampleUrl).2.fs = sampleWorld.fs := by
  refine ⟨?_, ?_, ?_, ?_⟩ <;> decide

/-- C6, the code at the failing input: with a limit of four bytes, a remote picture of six bytes
is saved in full as `pic.png` and `SaveRemote` reports success, although `checkSize` refuses six
bytes. -/
theorem C6_SaveRemote_has_no_size_gate :
    (SaveRemote sampleLib flatParams sampleTime sampleTime sampleRemote sampleWorld
        sampleUrl).1 = none ∧
    nodeAt (SaveRemote sampleLib flatParams sampleTime sampleTime sampleRemote sampleWorld
        sampleUrl).2 "pic.png".toList = some (Node.file [1, 2, 3, 4, 5, 6]) ∧
    flatParams.MaxSize = 4 ∧
    checkSize flatParams (([1, 2, 3, 4, 5, 6] : Bytes).length : Int)
      = some ERROR_SIZE_EXCEED := by
  refine ⟨?_, ?_, ?_, ?_⟩ <;> decide

/-! ## The filesystem after a write -/

theorem lookup_filter_ne (fs : List (Key × Node)) (k k' : Key) (h : k' ≠ k) :
    (fs.filter (fun e => decide (e.1 ≠ k))).lookup k' = fs.lookup k' := by
  induction fs with
  | nil => rfl
  | cons e fs ih =>
    obtain ⟨ek, en⟩ := e
    by_cases hek : ek = k
    · subst hek
      have hne : (k' == ek) = false := by simpa using h
      have hf : List.filter (fun e => decide (e.1 ≠ ek)) ((ek, en) :: fs)
          = List.filter (fun e => decide (e.1 ≠ ek)) fs := by
        rw [List.filter_cons_of_neg]; simp
      rw [hf, ih, List.lookup_cons, hne]
    · have hf : List.filter (fun e => decide (e.1 ≠ k)) ((ek, en) :: fs)
          = (ek, en) :: List.filter (fun e => decide (e.1 ≠ k)) fs := by
        rw [List.filter_cons_of_pos]; simpa using hek
      rw [hf, List.lookup_cons, List.lookup_cons, ih]

theorem lookup_setNode (fs : List (Key × Node)) (k k' : Key) (n : Node) :
    (setNode fs k n).lookup k' = if k' = k then some n else fs.lookup k' := by
  unfold setNode
  by_cases h : k' = k
  · subst h
    rw [List.lookup_cons, if_pos rfl]
    simp
  · have hne : (k' == k) = false := by simpa using h
    rw [List.lookup_cons, hne, if_neg h, lookup_filter_ne fs k k' h]

theorem walk_final_lookup (fs : List (Key × Node)) (comps : List Str) :
    ∀ (cur k : Key),
      (∀ d, walk fs cur comps = Lookup.found k (Node.file d) → fs.lookup k = some (Node.file d)) ∧
      (walk fs cur comps = Lookup.absent k → fs.lookup k = none) := by
  induction comps with
  | nil =>
    intro cur k
    unfold walk
    constructor
    · intro d hd; injection hd with _ hn; cases hn
    · intro hd; cases hd
  | cons c rest ih =>
    intro cur k
    unfold walk
    split
    · exact ih cur k
    · split
      · exact ih _ k
      · split
        · exact ih _ k
        · rename_i d0 hl
          by_cases hr : rest = []
          · rw [if_pos hr]
            constructor
            · intro d hd
              injection hd with hk hn
              subst hk; rw [← hn]; exact hl
            · intro hd; cases hd
          · rw [if_neg hr]
            constructor
            · intro d hd; cases hd
            · intro hd; cases hd
        · rename_i hl
          by_cases hr : rest = []
          · rw [if_pos hr]
            constructor
            · intro d hd; cases hd
            · intro hd
              injection hd with hk
              subst hk; exact hl
          · rw [if_neg hr]
            constructor
            · intro d hd; cases hd
            · intro hd; cases hd

theorem walk_setNode_file (fs : List (Key × Node)) (k : Key) (data : Bytes) (comps : List Str) :
    ∀ cur : Key,
      ((∃ d, walk fs cur comps = Lookup.found k (Node.file d)) ∨
        walk fs cur comps = Lookup.absent k) →
      walk (setNode fs k (Node.file data)) cur comps = Lookup.found k (Node.file data) := by
  induction comps with
  | nil =>
    intro cur h
    rcases h with ⟨d, h⟩ | h <;> simp [walk] at h
  | cons c rest ih =>
    intro cur h
    have hfin := walk_final_lookup fs (c :: rest) cur k
    unfold walk at h ⊢
    by_cases h1 : c = [] ∨ c = ['.']
    · simp only [h1, if_true] at h ⊢
      exact ih cur h
    · simp only [h1, if_false] at h ⊢
      by_cases h2 : c = ['.', '.']
      · simp only [h2, if_true] at h ⊢
        exact ih _ h
      · simp only [h2, if_false] at h ⊢
        have hk : fs.lookup k ≠ some Node.dir := by
          rcases h with ⟨d, hd⟩ | hd
          · have := hfin.1 d (by unfold walk; simp only [h1, h2, if_false]; exact hd)
            rw [this]; simp
          · have := hfin.2 (by unfold walk; simp only [h1, h2, if_false]; exact hd)
            rw [this]; simp
        rw [lookup_setNode]
        cases hl : fs.lookup (cur ++ [c]) with
        | none =>
          rw [hl] at h
          by_cases hr : rest = []
          · simp only [hr, if_true] at h
            rcases h with ⟨d, hd⟩ | hd
            · cases hd
            · injection hd with hkk
              simp [hkk, hr]
          · simp [hr] at h
        | some n =>
          rw [hl] at h
          cases n with
          | dir =>
            have hne : cur ++ [c] ≠ k := fun e => hk (e ▸ hl)
            simp only [hne, if_false]
            exact ih _ h
          | file d0 =>
            by_cases hr : rest = []
            · simp only [hr, if_true] at h
              rcases h with ⟨d, hd⟩ | hd
              · injection hd with hkk _
                simp [hkk, hr]
              · cases hd
            · simp [hr] at h

theorem WriteFile_nodeAt (w w1 : World) (name : Str) (data : Bytes)
    (h : WriteFile w name data = (w1, none)) : nodeAt w1 name = some (Node.file data) := by
  unfold WriteFile at h
  have key : ∀ k, ((∃ d, lookupPath w name = Lookup.found k (Node.file d)) ∨
      lookupPath w name = Lookup.absent k) →
      nodeAt { w with fs := setNode w.fs k (Node.file data) } name = some (Node.file data) := by
    intro k hk
    unfold nodeAt lookupPath
    unfold lookupPath at hk
    by_cases hn : name = []
    · simp [hn] at hk
    · simp only [hn, if_false] at hk ⊢
      rw [walk_setNode_file _ _ _ _ _ hk]
  split at h
  · rename_i k d hl
    injection h with h1 _
    rw [← h1]
    exact key k (Or.inl ⟨d, hl⟩)
  · rename_i k hl
    injection h with h1 _
    rw [← h1]
    exact key k (Or.inr hl)
  · injection h with _ h2; cases h2
  · injection h with _ h2; cases h2
  · injection h with _ h2; cases h2

theorem WriteFile_error (w w1 : World) (name : Str) (data : Bytes) (e : String)
    (h : WriteFile w name data = (w1, some e)) : w1 = w := by
  unfold WriteFile at h
  split at h <;> injection h with h1 h2 <;> first | exact h1.symm | cases h2

theorem MkdirAll_keeps (w : World) (path : Str) :
    (MkdirAll w path).1.requests = w.requests ∧ (MkdirAll w path).1.cwd = w.cwd := by
  unfold MkdirAll
  split <;> simp

theorem dirGate_some {w w1 : World} {fileDir : Str} (h : dirGate w fileDir = some w1) :
    ∃ pathExist, pathExists w fileDir = (pathExist, none) ∧
      (if !pathExist then MkdirAll w fileDir else (w, none)) = (w1, none) ∧
      w1.requests = w.requests := by
  unfold dirGate at h
  split at h
  · cases h
  · rename_i pe hpe
    refine ⟨pe, hpe, ?_⟩
    split at h
    · cases h
    · rename_i w1' hm
      injection h with h
      subst h
      refine ⟨hm, ?_⟩
      cases pe
      · simp only [Bool.not_false, if_true] at hm
        have := (MkdirAll_keeps w fileDir).1
        rw [hm] at this
        exact this
      · simp at hm
        rw [← hm]

/-- C7 as stated fails, also for a body within the size limit: every gate up to the download
is passed and GET returns `200` with a body of three bytes (`MaxSize` is four), yet the body is
not written, because the derived path `pic.png` is a directory; the answer is
`ERROR_WRITE_CONTENT`. -/
theorem C7_write_gate_counterexample :
    ¬ (∀ (lib : Lib) (up : UploaderParams) (timeNow timeNow2 : Time) (net : Remote)
        (w w1 : World) (remoteUrl : Str) (urlObj : URL) (headResp : HeadResponse)
        (resp : GetResponse) (data : Bytes),
        lib.urlParse remoteUrl = some urlObj →
        (ToLower lib urlObj.Scheme = "http".toList ∨
          ToLower lib urlObj.Scheme = "https".toList) →
        checkType lib up (Ext urlObj.Path) = none →
        dirGate w (Dir (getFullName up timeNow timeNow2 (Base urlObj.Path))) = some w1 →
        net.head remoteUrl = some headResp → headResp.StatusCode = 200 →
        Contains (ToLower lib (headResp.ContentType.getD [])) "image".toList = true →
        net.get remoteUrl = some resp → resp.StatusCode = 200 → resp.Body = Except.ok data →
        (data.length : Int) ≤ up.MaxSize →
        nodeAt (SaveRemote lib up timeNow timeNow2 net w remoteUrl).2
          (getFullName up timeNow timeNow2 (Base urlObj.Path)) = some (Node.file data)) := by
  intro h
  have h1 := h sampleLib flatParams sampleTime sampleTime smallRemote occupiedWorld
    occupiedWorld sampleUrl ⟨"http".toList, "/a/b.png".toList⟩ ⟨200, some "image/png".toList⟩
    ⟨200, Except.ok [1, 2, 3]⟩ [1, 2, 3]
    (by decide) (by decide) (by decide) (by decide) rfl rfl (by decide) rfl rfl rfl (by decide)
  revert h1
  decide

/-- C7, amended: after the URL, scheme, type and directory gates, a HEAD request that fails or
does not answer `200` gives `ERROR_DEAD_LINK`, and a `200` whose content type (empty when the
header is missing) does not contain `image` after lower-casing gives `ERROR_HTTP_CONTENTTYPE`;
in both cases HEAD is the only request issued.  When HEAD answers `200` with an image type and
GET answers `200` with a body that is read in full and is no longer than `MaxSize`, the body is
handed to `WriteFile` for the derived path: if that write succeeds the file holds exactly the
body and the result is success, and if it fails the result is `ERROR_WRITE_CONTENT`.  Nothing
is stated about a body longer than `MaxSize`. -/
theorem C7_SaveRemote_head_then_get (lib : Lib) (up : UploaderParams) (timeNow timeNow2 : Time)
    (net : Remote) (w w1 : World) (remoteUrl : Str) (urlObj : URL)
    (hparse : lib.urlParse remoteUrl = some urlObj)
    (hscheme : ToLower lib urlObj.Scheme = "http".toList ∨
      ToLower lib urlObj.Scheme = "https".toList)
    (htype : checkType lib up (Ext urlObj.Path) = none)
    (hdir : dirGate w (Dir (getFullName up timeNow timeNow2 (Base urlObj.Path))) = some w1) :
    (logRequest w1 Method.HEAD remoteUrl).requests = w.requests ++ [(Method.HEAD, remoteUrl)] ∧
    ((net.head remoteUrl = none ∨ ∃ h, net.head remoteUrl = some h ∧ h.StatusCode ≠ 200) →
      SaveRemote lib up timeNow timeNow2 net w remoteUrl
        = (some ERROR_DEAD_LINK, logRequest w1 Method.HEAD remoteUrl)) ∧
    (∀ h, net.head remoteUrl = some h → h.StatusCode = 200 →
      Contains (ToLower lib (h.ContentType.getD [])) "image".toList = false →
      SaveRemote lib up timeNow timeNow2 net w remoteUrl
        = (some ERROR_HTTP_CONTENTTYPE, logRequest w1 Method.HEAD remoteUrl)) ∧
    (∀ h resp data, net.head remoteUrl = some h → h.StatusCode = 200 →
      Contains (ToLower lib (h.ContentType.getD [])) "image".toList = true →
      net.get remoteUrl = some resp → resp.StatusCode = 200 → resp.Body = Except.ok data →
      (data.length : Int) ≤ up.MaxSize →
      (∀ w4, WriteFile (logRequest (logRequest w1 Method.HEAD remoteUrl) Method.GET remoteUrl)
            (getFullName up timeNow timeNow2 (Base urlObj.Path)) data = (w4, none) →
        SaveRemote lib up timeNow timeNow2 net w remoteUrl = (none, w4) ∧
        nodeAt w4 (getFullName up timeNow timeNow2 (Base urlObj.Path))
          = some (Node.file data)) ∧
      (∀ w4 e, WriteFile (logRequest (logRequest w1 Method.HEAD remoteUrl) Method.GET remoteUrl)
            (getFullName up timeNow timeNow2 (Base urlObj.Path)) data = (w4, some e) →
        SaveRemote lib up timeNow timeNow2 net w remoteUrl = (some ERROR_WRITE_CONTENT,
          logRequest (logRequest w1 Method.HEAD remoteUrl) Method.GET remoteUrl))) := by
  obtain ⟨pe, hpe, hmk, hreq⟩ := dirGate_some hdir
  have hs : ¬ (ToLower lib urlObj.Scheme ≠ "http".toList ∧
      ToLower lib urlObj.Scheme ≠ "https".toList) := by tauto
  refine ⟨?_, ?_, ?_, ?_⟩
  · simp [logRequest, hreq]
  · rintro (hh | ⟨h, hh, hst⟩)
    · simp only [SaveRemote, hparse, hs, if_false, htype, hpe, hmk, hh]
    · simp only [SaveRemote, hparse, hs, if_false, htype, hpe, hmk, hh, hst, ne_eq,
        not_false_eq_true, if_true]
  · intro h hh hst hct
    simp only [SaveRemote, hparse, hs, if_false, htype, hpe, hmk, hh, hct]
    simp [hst]
  · intro h resp data hh hst hct hg hgs hb _
    constructor
    · intro w4 hw
      refine ⟨?_, WriteFile_nodeAt _ _ _ _ hw⟩
      simp only [SaveRemote, hparse, hs, if_false, htype, hpe, hmk, hh, hct, hg, hb, hw]
      simp [hst, hgs]
    · intro w4 e hw
      have hw4 := WriteFile_error _ _ _ _ _ hw
      subst hw4
      simp only [SaveRemote, hparse, hs, if_false, htype, hpe, hmk, hh, hct, hg, hb, hw]
      simp [hst, hgs]

/-- C7, amended, applied to `pic.png` in `/srv` with a limit of four bytes: a `404` and a
`text/html` answer to HEAD stop before any GET, a picture of three bytes is stored as it came,
and the same picture is answered with `ERROR_WRITE_CONTENT` when `pic.png` is a directory. -/
theorem C7_SaveRemote_head_then_get_witness :
    SaveRemote sampleLib flatParams sampleTime sampleTime deadRemote sampleWorld sampleUrl
      = (some ERROR_DEAD_LINK, logRequest sampleWorld Method.HEAD sampleUrl) ∧
    SaveRemote sampleLib flatParams sampleTime sampleTime htmlRemote sampleWorld sampleUrl
      = (some ERROR_HTTP_CONTENTTYPE, logRequest sampleWorld Method.HEAD sampleUrl) ∧
    ((([1, 2, 3] : Bytes).length : Int) ≤ flatParams.MaxSize ∧
      (SaveRemote sampleLib flatParams sampleTime sampleTime smallRemote sampleWorld
        sampleUrl).1 = none ∧
      nodeAt (SaveRemote sampleLib flatParams sampleTime sampleTime smallRemote sampleWorld
        sampleUrl).2 "pic.png".toList = some (Node.file [1, 2, 3])) ∧
    SaveRemote sampleLib flatParams sampleTime sampleTime smallRemote occupiedWorld sampleUrl
      = (some ERROR_WRITE_CONTENT,
          logRequest (logRequest occupiedWorld Method.HEAD sampleUrl) Method.GET sampleUrl) :=
  ⟨(C7_SaveRemote_head_then_get sampleLib flatParams sampleTime sampleTime deadRemote
      sampleWorld sampleWorld sampleUrl ⟨"http".toList, "/a/b.png".toList⟩
      (by decide) (by decide) (by decide) (by decide)).2.1
      (Or.inr ⟨⟨404, some "image/png".toList⟩, rfl, by decide⟩),
   (C7_SaveRemote_head_then_get sampleLib flatParams sampleTime sampleTime htmlRemote
      sampleWorld sampleWorld sampleUrl ⟨"http".toList, "/a/b.png".toList⟩
      (by decide) (by decide) (by decide) (by decide)).2.2.1
      ⟨200, some "text/html".toList⟩ rfl rfl (by decide),
   by
    have h := ((C7_SaveRemote_head_then_get sampleLib flatParams sampleTime sampleTime
      smallRemote sampleWorld sampleWorld sampleUrl ⟨"http".toList, "/a/b.png".toList⟩
      (by decide) (by decide) (by decide) (by decide)).2.2.2
      ⟨200, some "image/png".toList⟩ ⟨200, Except.ok [1, 2, 3]⟩ [1, 2, 3]
      rfl rfl (by decide) rfl rfl rfl (by decide)).1 _ (by decide :
        WriteFile (logRequest (logRequest sampleWorld Method.HEAD sampleUrl) Method.GET
          sampleUrl) (getFullName flatParams sampleTime sampleTime
            (Base (⟨"http".toList, "/a/b.png".toList⟩ : URL).Path)) [1, 2, 3]
        = ((WriteFile (logRequest (logRequest sampleWorld Method.HEAD sampleUrl) Method.GET
          sampleUrl) "pic.png".toList [1, 2, 3]).1, none))
    rw [h.1]
    exact ⟨by decide, rfl, h.2⟩,
   ((C7_SaveRemote_head_then_get sampleLib flatParams sampleTime sampleTime
      smallRemote occupiedWorld occupiedWorld sampleUrl ⟨"http".toList, "/a/b.png".toList⟩
      (by decide) (by decide) (by decide) (by decide)).2.2.2
      ⟨200, some "image/png".toList⟩ ⟨200, Except.ok [1, 2, 3]⟩ [1, 2, 3]
      rfl rfl (by decide) rfl rfl rfl (by decide)).2
      (logRequest (logRequest occupiedWorld Method.HEAD sampleUrl) Method.GET sampleUrl)
      "open: is a directory" (by decide)⟩

/-! ## What the entry points cannot do -/

/-- `UpFile` reports success only when, after the directory gate, the destination already
resolves to a regular file: it never creates one. -/
theorem UpFile_success_needs_existing_file (lib : Lib) (up : UploaderParams)
    (timeNow timeNow2 : Time) (w : World) (file : FileStream) (handle : FileHeader)
    (h : (UpFile lib up timeNow timeNow2 w (some file) (some handle)).1 = none) :
    ∃ w1 k d, dirGate w (Dir (getFullName up timeNow timeNow2 handle.Filename)) = some w1 ∧
      lookupPath w1 (getFullName up timeNow timeNow2 handle.Filename)
        = Lookup.found k (Node.file d) := by
  revert h
  simp only [UpFile, dirGate]
  split
  · intro h; cases h
  · split
    · intro h; cases h
    · split
      · intro h; cases h
      · split
        · intro h; cases h
        · rename_i w1 hm
          split
          · intro h; cases h
          · rename_i k hk
            intro _
            refine ⟨w1, k, ?_⟩
            unfold OpenFile at hk
            split at hk
            · rename_i k' d hl
              exact ⟨d, rfl, by injection hk with hk; rw [← hk]; exact hl⟩
            · cases hk

/-- `SaveRemote` has no size gate: unless the read error of the body happens to carry that
very message, it never answers `ERROR_SIZE_EXCEED`, whatever the length of the body is. -/
theorem SaveRemote_never_size_exceed (lib : Lib) (up : UploaderParams)
    (timeNow timeNow2 : Time) (net : Remote) (w : World) (remoteUrl : Str)
    (hread : ∀ resp, net.get remoteUrl = some resp →
      resp.Body ≠ Except.error ERROR_SIZE_EXCEED) :
    (SaveRemote lib up timeNow timeNow2 net w remoteUrl).1 ≠ some ERROR_SIZE_EXCEED := by
  simp only [SaveRemote]
  split
  · dsimp only; decide
  · split
    · dsimp only; decide
    · split
      · rename_i err he
        rw [checkType_some he]; dsimp only; decide
      · split
        · dsimp only; decide
        · split
          · dsimp only; decide
          · split
            · dsimp only; decide
            · split
              · dsimp only; decide
              · split
                · dsimp only; decide
                · split
                  · dsimp only; decide
                  · rename_i resp hg
                    split
                    · dsimp only; decide
                    · split
                      · rename_i e hb
                        dsimp only
                        intro he
                        injection he with he
                        exact hread resp hg (by rw [hb, he])
                      · split
                        · dsimp only; decide
                        · simp

/-! ## Decimal digits -/

theorem decimalFuel_lt_ten (f n : Nat) (h : n < 10) : decimalFuel f n = [digitChar n] := by
  cases f <;> simp [decimalFuel, h]

theorem decimalFuel_succ (f n : Nat) (h : 10 ≤ n) :
    decimalFuel (f + 1) n = decimalFuel f (n / 10) ++ [digitChar n] := by
  simp [decimalFuel, Nat.not_lt.mpr h]

theorem decimal_lt_ten (n : Nat) (h : n < 10) : decimal n = [digitChar n] :=
  decimalFuel_lt_ten n n h

theorem decimal_two (n : Nat) (h0 : 10 ≤ n) (h : n < 100) :
    decimal n = [digitChar (n / 10), digitChar n] := by
  unfold decimal
  obtain ⟨f, rfl⟩ : ∃ f, n = f + 1 := ⟨n - 1, by omega⟩
  rw [decimalFuel_succ f _ h0, decimalFuel_lt_ten f _ (by omega)]
  rfl

theorem decimal_three (n : Nat) (h0 : 100 ≤ n) (h : n < 1000) :
    decimal n = [digitChar (n / 100), digitChar (n / 10), digitChar n] := by
  unfold decimal
  obtain ⟨f, rfl⟩ : ∃ f, n = f + 2 := ⟨n - 2, by omega⟩
  rw [decimalFuel_succ (f + 1) _ (by omega), decimalFuel_succ f _ (by omega),
    decimalFuel_lt_ten f _ (by omega), Nat.div_div_eq_div_mul]
  rfl

theorem decimal_four (n : Nat) (h0 : 1000 ≤ n) (h : n < 10000) :
    decimal n = [digitChar (n / 1000), digitChar (n / 100), digitChar (n / 10), digitChar n] := by
  unfold decimal
  obtain ⟨f, rfl⟩ : ∃ f, n = f + 3 := ⟨n - 3, by omega⟩
  rw [decimalFuel_succ (f + 2) _ (by omega), decimalFuel_succ (f + 1) _ (by omega),
    decimalFuel_succ f _ (by omega), decimalFuel_lt_ten f _ (by omega)]
  simp only [Nat.div_div_eq_div_mul, List.singleton_append, List.cons_append, List.nil_append]

theorem digitChar_zero_of_lt {n k : Nat} (h : n < k) : digitChar (n / k) = '0' := by
  rw [Nat.div_eq_of_lt h]; rfl

theorem appendInt_two (n : Nat) (h : n < 100) : appendInt (n : Int) 2 = twoDigits n := by
  have hneg : ¬ ((n : Int) < 0) := by omega
  simp only [appendInt, hneg, if_false, Int.natAbs_ofNat, List.nil_append, twoDigits]
  by_cases h10 : n < 10
  · rw [decimal_lt_ten n h10, digitChar_zero_of_lt h10]; rfl
  · rw [decimal_two n (by omega) h]; rfl

theorem appendInt_four (y : Int) (h0 : 0 ≤ y) (h : y ≤ 9999) :
    appendInt y 4 = fourDigits y.toNat := by
  obtain ⟨n, rfl⟩ := Int.eq_ofNat_of_zero_le h0
  have hn : n < 10000 := by omega
  have hneg : ¬ ((n : Int) < 0) := by omega
  simp only [appendInt, hneg, if_false, Int.natAbs_ofNat, List.nil_append, fourDigits,
    Int.toNat_ofNat]
  by_cases h10 : n < 10
  · rw [decimal_lt_ten n h10, digitChar_zero_of_lt h10,
      digitChar_zero_of_lt (show n < 100 by omega), digitChar_zero_of_lt (show n < 1000 by omega)]
    rfl
  · by_cases h100 : n < 100
    · rw [decimal_two n (by omega) h100, digitChar_zero_of_lt h100,
        digitChar_zero_of_lt (show n < 1000 by omega)]
      rfl
    · by_cases h1000 : n < 1000
      · rw [decimal_three n (by omega) h1000, digitChar_zero_of_lt h1000]; rfl
      · rw [decimal_four n (by omega) hn]; rfl

theorem digitChar_isDigit (d : Nat) : (digitChar d).isDigit = true := by
  unfold digitChar
  have h := Nat.mod_lt d (show 10 > 0 by decide)
  generalize d % 10 = m at h
  interval_cases m <;> decide

theorem decimalFuel_isDigit (f : Nat) : ∀ n c, c ∈ decimalFuel f n → c.isDigit = true := by
  induction f with
  | zero =>
    intro n c hc
    simp only [decimalFuel, List.mem_singleton] at hc
    rw [hc]; exact digitChar_isDigit n
  | succ f ih =>
    intro n c hc
    unfold decimalFuel at hc
    split at hc
    · simp only [List.mem_singleton] at hc
      rw [hc]; exact digitChar_isDigit n
    · rcases List.mem_append.mp hc with h | h
      · exact ih _ _ h
      · simp only [List.mem_singleton] at h
        rw [h]; exact digitChar_isDigit n

theorem decimalFuel_ne_nil (f n : Nat) : decimalFuel f n ≠ [] := by
  cases f with
  | zero => simp [decimalFuel]
  | succ f =>
    unfold decimalFuel
    split <;> simp

theorem appendInt_isValueChar (x : Int) (width : Nat) :
    ∀ c ∈ appendInt x width, isValueChar c = true := by
  intro c hc
  unfold appendInt at hc
  rcases List.mem_append.mp hc with h | h
  · rcases List.mem_append.mp h with h | h
    · split at h
      · simp only [List.mem_singleton] at h
        rw [h]; decide
      · simp at h
    · rw [(List.mem_replicate.mp h).2]; decide
  · simp [isValueChar, decimalFuel_isDigit _ _ _ h]

theorem appendInt_ne_nil (x : Int) (width : Nat) : appendInt x width ≠ [] := by
  unfold appendInt
  intro h
  exact decimalFuel_ne_nil _ _ (List.append_eq_nil.mp h).2

theorem FormatInt_isValueChar (x : Int) : ∀ c ∈ FormatInt x, isValueChar c = true := by
  intro c hc
  unfold FormatInt at hc
  split at hc
  · rcases List.mem_cons.mp hc with h | h
    · rw [h]; decide
    · simp [isValueChar, decimalFuel_isDigit _ _ _ h]
  · simp [isValueChar, decimalFuel_isDigit _ _ _ hc]

theorem FormatInt_ne_nil (x : Int) : FormatInt x ≠ [] := by
  unfold FormatInt
  split
  · simp
  · exact decimalFuel_ne_nil _ _

/-! ## Splitting the formatted time -/

theorem Split_of_not_mem (sep : Char) (s : Str) (h : sep ∉ s) : Split sep s = [s] := by
  induction s with
  | nil => rfl
  | cons c cs ih =>
    have hc : c ≠ sep := fun e => h (e ▸ List.mem_cons_self _ _)
    have hcs : sep ∉ cs := fun e => h (List.mem_cons_of_mem _ e)
    simp [Split, hc, ih hcs]

theorem Split_append_sep (sep : Char) (a rest : Str) (h : sep ∉ a) :
    Split sep (a ++ sep :: rest) = a :: Split sep rest := by
  induction a with
  | nil => simp [Split]
  | cons c cs ih =>
    have hc : c ≠ sep := fun e => h (e ▸ List.mem_cons_self _ _)
    have hcs : sep ∉ cs := fun e => h (List.mem_cons_of_mem _ e)
    simp [Split, hc, ih hcs]

theorem underscore_not_mem_of_isValueChar (v : Str) (h : ∀ c ∈ v, isValueChar c = true) :
    '_' ∉ v := by
  intro hm
  have := h _ hm
  revert this
  decide

theorem Split_Format (t : Time) :
    Split '_' (Format t) =
      [appendInt t.year 4, appendInt t.month 2, appendInt t.day 2, appendInt t.hour 2,
       appendInt t.minute 2, appendInt t.second 2] := by
  have hv := fun (x : Int) (w : Nat) =>
    underscore_not_mem_of_isValueChar _ (appendInt_isValueChar x w)
  simp only [Format, List.append_assoc, List.cons_append]
  rw [Split_append_sep _ _ _ (hv _ _), Split_append_sep _ _ _ (hv _ _),
    Split_append_sep _ _ _ (hv _ _), Split_append_sep _ _ _ (hv _ _),
    Split_append_sep _ _ _ (hv _ _), Split_of_not_mem _ _ (hv _ _)]

/-- The source form of `getFullName` is the fold of the seven substitutions over the template,
followed by the extension. -/
theorem getFullName_eq_foldl (up : UploaderParams) (timeNow timeNow2 : Time) (oriName : Str) :
    getFullName up timeNow timeNow2 oriName =
      (substitutions timeNow timeNow2).foldl substStep up.PathFormat ++ Ext oriName := by
  simp only [getFullName, Split_Format, substitutions, List.foldl, substStep, List.getD_cons_zero,
    List.getD_cons_succ]

/-! ## The extension -/

theorem fromLastDot_of_not_mem (q : Str) (h : '.' ∉ q) : fromLastDot q = [] := by
  induction q with
  | nil => rfl
  | cons x q ih =>
    have hx : x ≠ '.' := fun e => h (e ▸ List.mem_cons_self _ _)
    have hq : '.' ∉ q := fun e => h (List.mem_cons_of_mem _ e)
    simp [fromLastDot, hx, hq]

theorem fromLastDot_append_dot (q : Str) : fromLastDot (q ++ ['.']) = ['.'] := by
  induction q with
  | nil => simp [fromLastDot]
  | cons x q ih => simp [fromLastDot, ih]

theorem fromLastDot_append_char (q : Str) (c : Char) (hc : c ≠ '.') (hq : '.' ∈ q) :
    fromLastDot (q ++ [c]) = fromLastDot q ++ [c] := by
  induction q with
  | nil => simp at hq
  | cons x q ih =>
    by_cases h : '.' ∈ q
    · simp [fromLastDot, h, ih h]
    · have hx : x = '.' := by
        rcases List.mem_cons.mp hq with e | e
        · exact e.symm
        · exact absurd e h
      have hc' : ¬ ('.' = c) := fun e => hc e.symm
      simp [fromLastDot, h, hx, hc']

theorem extScan_reverse (p : Str) : ∀ acc : Str, '/' ∉ p →
    extScan p.reverse acc = if '.' ∈ p then fromLastDot p ++ acc else [] := by
  induction p using List.reverseRecOn with
  | nil => intro acc _; simp [extScan]
  | append_singleton q c ih =>
    intro acc hp
    have hc : c ≠ '/' := fun e => hp (by simp [e])
    have hq : '/' ∉ q := fun e => hp (by simp [e])
    rw [List.reverse_append, List.reverse_singleton, List.singleton_append]
    unfold extScan
    rw [if_neg hc]
    by_cases hd : c = '.'
    · subst hd
      simp [fromLastDot_append_dot]
    · rw [if_neg hd, ih _ hq]
      have hd' : ¬ ('.' = c) := fun e => hd e.symm
      by_cases hm : '.' ∈ q
      · simp [hm, fromLastDot_append_char q c hd hm]
      · simp [hm, hd']

theorem extScan_append_stop (a b : Str) (hb : b = [] ∨ b.head? = some '/') :
    ∀ acc : Str, extScan (a ++ b) acc = extScan a acc := by
  induction a with
  | nil =>
    intro acc
    rcases hb with hb | hb
    · subst hb; rfl
    · cases b with
      | nil => simp at hb
      | cons x b =>
        simp only [List.head?_cons, Option.some.injEq] at hb
        subst hb
        simp [extScan]
  | cons x a ih =>
    intro acc
    simp only [List.cons_append, extScan]
    split
    · rfl
    · split
      · rfl
      · exact ih _

theorem dropWhile_head (p : Char → Bool) (l : Str) :
    l.dropWhile p = [] ∨ ∃ x t, l.dropWhile p = x :: t ∧ p x = false := by
  induction l with
  | nil => exact Or.inl rfl
  | cons x l ih =>
    by_cases h : p x = true
    · simpa [List.dropWhile, h] using ih
    · right
      refine ⟨x, l, ?_, by simpa using h⟩
      simp [List.dropWhile, h]

theorem Ext_eq_fromLastDot (path : Str) : Ext path = fromLastDot (lastElement path) := by
  unfold Ext
  have hsplit : path.reverse =
      path.reverse.takeWhile (· ≠ '/') ++ path.reverse.dropWhile (· ≠ '/') :=
    (List.takeWhile_append_dropWhile _ _).symm
  have hstop : path.reverse.dropWhile (· ≠ '/') = [] ∨
      (path.reverse.dropWhile (· ≠ '/')).head? = some '/' := by
    rcases dropWhile_head (· ≠ '/') path.reverse with h | ⟨x, t, h, hx⟩
    · exact Or.inl h
    · right
      rw [h]
      simpa using hx
  rw [hsplit, extScan_append_stop _ _ hstop]
  have hno : '/' ∉ lastElement path := by
    unfold lastElement
    intro hm
    have := List.mem_takeWhile_imp (List.mem_reverse.mp hm)
    simp at this
  have hrev : path.reverse.takeWhile (· ≠ '/') = (lastElement path).reverse := by
    unfold lastElement
    rw [List.reverse_reverse]
  rw [hrev, extScan_reverse _ _ hno]
  by_cases hd : '.' ∈ lastElement path
  · simp [hd]
  · simp [hd, fromLastDot_of_not_mem _ hd]

theorem lastElement_of_no_sep (name : Str) (h : '/' ∉ name) : lastElement name = name := by
  unfold lastElement
  rw [List.takeWhile_eq_self_iff.mpr, List.reverse_reverse]
  intro x hx
  have hx' : x ∈ name := List.mem_reverse.mp hx
  have : x ≠ '/' := fun e => h (e ▸ hx')
  simpa using this

/-- `Replace1` replaces the leftmost occurrence: a string without an occurrence is returned
unchanged, and if `a ++ old ++ b` is the decomposition with the shortest `a`, the result is
`a ++ new ++ b`. -/
theorem Replace1_first_occurrence (old new : Str) : ∀ s : Str,
    (¬ old <:+: s → Replace1 s old new = s) ∧
    (∀ a b, s = a ++ old ++ b →
      (∀ a' b', s = a' ++ old ++ b' → a.length ≤ a'.length) →
      Replace1 s old new = a ++ new ++ b) := by
  intro s
  induction s with
  | nil =>
    constructor
    · intro h
      have hp : ¬ old <+: [] := fun hp => h hp.isInfix
      have hb : old.isPrefixOf [] = false := by
        rw [Bool.eq_false_iff]; intro e; exact hp (List.isPrefixOf_iff_prefix.mp e)
      unfold Replace1
      simp [hb]
    · intro a b hs _
      have h1 : a = [] := by
        cases a with
        | nil => rfl
        | cons x a => simp at hs
      subst h1
      have h2 : old = [] := by
        cases old with
        | nil => rfl
        | cons x o => simp at hs
      subst h2
      have h3 : b = [] := by simpa using hs.symm
      subst h3
      unfold Replace1
      simp
  | cons c cs ih =>
    constructor
    · intro h
      have hp : ¬ old <+: c :: cs := fun hp => h hp.isInfix
      have hb : old.isPrefixOf (c :: cs) = false := by
        rw [Bool.eq_false_iff]; intro e; exact hp (List.isPrefixOf_iff_prefix.mp e)
      have hcs : ¬ old <:+: cs := by
        rintro ⟨x, y, hxy⟩
        exact h ⟨c :: x, y, by simp [← hxy]⟩
      unfold Replace1
      simp only [hb, Bool.false_eq_true, if_false]
      rw [(ih.1 hcs)]
    · intro a b hs hmin
      by_cases hb : old.isPrefixOf (c :: cs) = true
      · obtain ⟨t, ht⟩ := List.isPrefixOf_iff_prefix.mp hb
        have ha : a = [] := by
          have := hmin [] t (by simp [ht])
          exact List.length_eq_zero.mp (Nat.le_zero.mp this)
        subst ha
        have hd : (c :: cs).drop old.length = b := by
          rw [hs]; simp
        unfold Replace1
        simp only [hb, if_true, hd, List.nil_append]
      · have hne : a ≠ [] := by
          intro ha
          subst ha
          exact hb (List.isPrefixOf_iff_prefix.mpr ⟨b, by simp [hs]⟩)
        obtain ⟨x, a0, rfl⟩ := List.exists_cons_of_ne_nil hne
        simp only [List.cons_append, List.cons.injEq] at hs
        obtain ⟨hx, hcs⟩ := hs
        subst hx
        have hmin0 : ∀ a' b', cs = a' ++ old ++ b' → a0.length ≤ a'.length := by
          intro a' b' h'
          have := hmin (c :: a') b' (by simp [h'])
          simpa using this
        unfold Replace1
        simp only [hb, Bool.false_eq_true, if_false]
        rw [(ih.2 a0 b hcs hmin0)]
        rfl

/-- C3: for every template, every pair of clock readings whose formatted year lies in `0..9999`
and every original name, `getFullName` returns the template in which `Replace1` (the leftmost
occurrence) has replaced, in this order, `{yyyy}` by the four-digit year, `{mm}`, `{dd}`, `{hh}`,
`{ii}`, `{ss}` by the two-digit zero-padded month, day, hour, minute and second, and `{time}` by
the decimal nanosecond timestamp, followed by the unchanged extension of the original name.  The
formatted time always splits into six fields, so no index of `timeArr` is out of range.  The
extension is what follows the last dot of the final path element, dot included; for a name
without a separator that is the part of the name from its last dot. -/
theorem C3_getFullName_substitution (up : UploaderParams) (timeNow timeNow2 : Time)
    (oriName : Str) (hy0 : 0 ≤ timeNow2.year) (hy1 : timeNow2.year ≤ 9999) :
    getFullName up timeNow timeNow2 oriName =
      Replace1 (Replace1 (Replace1 (Replace1 (Replace1 (Replace1 (Replace1 up.PathFormat
        "{yyyy}".toList (fourDigits timeNow2.year.toNat))
        "{mm}".toList (twoDigits timeNow2.month))
        "{dd}".toList (twoDigits timeNow2.day))
        "{hh}".toList (twoDigits timeNow2.hour))
        "{ii}".toList (twoDigits timeNow2.minute))
        "{ss}".toList (twoDigits timeNow2.second))
        "{time}".toList (FormatInt timeNow.unixNano) ++ Ext oriName ∧
    (Split '_' (Format timeNow2)).length = 6 ∧
    Ext oriName = fromLastDot (lastElement oriName) ∧
    ('/' ∉ oriName → Ext oriName = fromLastDot oriName) := by
  refine ⟨?_, by rw [Split_Format]; rfl, Ext_eq_fromLastDot oriName, ?_⟩
  · rw [getFullName_eq_foldl]
    simp only [substitutions, List.foldl, substStep]
    rw [appendInt_four _ hy0 hy1,
      appendInt_two _ (lt_of_le_of_lt timeNow2.month_range.2 (by decide)),
      appendInt_two _ (lt_of_le_of_lt timeNow2.day_range.2 (by decide)),
      appendInt_two _ (lt_trans timeNow2.hour_range (by decide)),
      appendInt_two _ (lt_trans timeNow2.minute_range (by decide)),
      appendInt_two _ (lt_trans timeNow2.second_range (by decide))]
  · intro h
    rw [Ext_eq_fromLastDot, lastElement_of_no_sep _ h]

/-- C3, applied to a template with all seven placeholders. -/
theorem C3_getFullName_substitution_witness :
    getFullName fullTemplateParams sampleTime sampleTime "photo.v2.JPG".toList
      = "up/2024/03/05/070809_1709622489000000123.JPG".toList ∧
    Ext "photo.v2.JPG".toList = fromLastDot "photo.v2.JPG".toList :=
  ⟨(C3_getFullName_substitution fullTemplateParams sampleTime sampleTime "photo.v2.JPG".toList
      (by decide) (by decide)).1.trans (by decide),
   (C3_getFullName_substitution fullTemplateParams sampleTime sampleTime "photo.v2.JPG".toList
      (by decide) (by decide)).2.2.2 (by decide)⟩

/-! ## Substitution neither leaves nor creates a placeholder -/

theorem Replace1_nil (old new : Str) (h : old ≠ []) : Replace1 [] old new = [] := by
  cases old with
  | nil => exact absurd rfl h
  | cons x o => unfold Replace1; simp

theorem Replace1_of_isPrefixOf (s old new : Str) (h : old.isPrefixOf s = true) :
    Replace1 s old new = new ++ s.drop old.length := by
  unfold Replace1; simp [h]

theorem Replace1_cons_of_not (c : Char) (cs old new : Str)
    (h : old.isPrefixOf (c :: cs) = false) :
    Replace1 (c :: cs) old new = c :: Replace1 cs old new := by
  rw [Replace1]; simp [h]

theorem isPrefixOf_of_Replace1 (X v : Str) (hX : X ≠ []) (hv : v ≠ []) :
    ∀ (s Y : Str), (∀ c ∈ v, c ∉ Y) → Y.isPrefixOf (Replace1 s X v) = true →
      Y.isPrefixOf s = true := by
  intro s
  induction s with
  | nil =>
    intro Y _ h
    rw [Replace1_nil X v hX] at h
    exact h
  | cons c cs ih =>
    intro Y hY h
    cases Y with
    | nil => simp
    | cons y ys =>
      by_cases hp : X.isPrefixOf (c :: cs) = true
      · rw [Replace1_of_isPrefixOf _ _ _ hp] at h
        obtain ⟨v0, v', rfl⟩ := List.exists_cons_of_ne_nil hv
        simp only [List.cons_append, List.isPrefixOf_cons₂, Bool.and_eq_true, beq_iff_eq] at h
        exact absurd (by simp [h.1]) (hY v0 (List.mem_cons_self _ _))
      · have hp' : X.isPrefixOf (c :: cs) = false := Bool.eq_false_iff.mpr hp
        rw [Replace1_cons_of_not _ _ _ _ hp'] at h
        simp only [List.isPrefixOf_cons₂, Bool.and_eq_true, beq_iff_eq] at h ⊢
        exact ⟨h.1, ih ys (fun c hc hm => hY c hc (List.mem_cons_of_mem _ hm)) h.2⟩

theorem isPrefixOf_cons_of_ne (y x : Char) (ys t : Str) (h : y ≠ x) :
    (y :: ys).isPrefixOf (x :: t) = false := by
  simp [List.isPrefixOf_cons₂, h]

theorem Replace1_append_of_head_not_mem (y : Char) (ys w : Str) :
    ∀ (u r : Str), y ∉ u → Replace1 (u ++ r) (y :: ys) w = u ++ Replace1 r (y :: ys) w := by
  intro u
  induction u with
  | nil => intro r _; rfl
  | cons x u ih =>
    intro r hu
    have hx : y ≠ x := fun e => hu (e ▸ List.mem_cons_self _ _)
    have hu' : y ∉ u := fun e => hu (List.mem_cons_of_mem _ e)
    rw [List.cons_append, Replace1_cons_of_not _ _ _ _ (isPrefixOf_cons_of_ne y x ys _ hx),
      ih r hu', List.cons_append]

theorem Count_append_of_head_not_mem (y : Char) (ys : Str) :
    ∀ (u r : Str), y ∉ u → Count (y :: ys) (u ++ r) = Count (y :: ys) r := by
  intro u
  induction u with
  | nil => intro r _; rfl
  | cons x u ih =>
    intro r hu
    have hx : y ≠ x := fun e => hu (e ▸ List.mem_cons_self _ _)
    have hu' : y ∉ u := fun e => hu (List.mem_cons_of_mem _ e)
    rw [List.cons_append, Count, isPrefixOf_cons_of_ne y x ys _ hx, ih r hu']
    simp

theorem Count_le_append (Y : Str) : ∀ (u r : Str), Count Y r ≤ Count Y (u ++ r) := by
  intro u
  induction u with
  | nil => intro r; exact le_rfl
  | cons x u ih =>
    intro r
    rw [List.cons_append, Count]
    exact le_trans (ih r) (Nat.le_add_left _ _)

theorem eq_append_drop_of_isPrefixOf (X s : Str) (h : X.isPrefixOf s = true) :
    s = X ++ s.drop X.length := by
  obtain ⟨t, ht⟩ := List.isPrefixOf_iff_prefix.mp h
  rw [← ht]; simp

theorem Count_Replace1_le (X v : Str) (hX : X ≠ []) (hv : v ≠ []) (y : Char) (ys : Str)
    (hY : ∀ c ∈ v, c ∉ y :: ys) :
    ∀ s : Str, Count (y :: ys) (Replace1 s X v) ≤ Count (y :: ys) s := by
  intro s
  induction s with
  | nil => rw [Replace1_nil X v hX]
  | cons c cs ih =>
    by_cases hp : X.isPrefixOf (c :: cs) = true
    · rw [Replace1_of_isPrefixOf _ _ _ hp,
        Count_append_of_head_not_mem y ys v _ (fun hm => hY y hm (List.mem_cons_self _ _))]
      conv_rhs => rw [eq_append_drop_of_isPrefixOf X _ hp]
      exact Count_le_append _ _ _
    · have hp' : X.isPrefixOf (c :: cs) = false := Bool.eq_false_iff.mpr hp
      have hA := isPrefixOf_of_Replace1 X v hX hv (c :: cs) (y :: ys) hY
      rw [Replace1_cons_of_not _ _ _ _ hp'] at hA ⊢
      rw [Count, Count]
      apply Nat.add_le_add _ ih
      by_cases hq : (y :: ys).isPrefixOf (c :: Replace1 cs X v) = true
      · rw [if_pos hq, if_pos (hA hq)]
      · rw [if_neg hq]; exact Nat.zero_le _

theorem Count_Replace1_self (x : Char) (xs v : Str) (hv : v ≠ [])
    (hY : ∀ c ∈ v, c ∉ x :: xs) :
    ∀ s : Str, Count (x :: xs) (Replace1 s (x :: xs) v) ≤ Count (x :: xs) s - 1 := by
  intro s
  induction s with
  | nil => rw [Replace1_nil _ v (by simp)]; exact Nat.zero_le _
  | cons c cs ih =>
    by_cases hp : (x :: xs).isPrefixOf (c :: cs) = true
    · rw [Replace1_of_isPrefixOf _ _ _ hp,
        Count_append_of_head_not_mem x xs v _ (fun hm => hY x hm (List.mem_cons_self _ _))]
      have hdec := eq_append_drop_of_isPrefixOf (x :: xs) _ hp
      have h1 : Count (x :: xs) (c :: cs) = 1 + Count (x :: xs) cs := by
        rw [Count, if_pos hp]
      have hcs : cs = xs ++ (c :: cs).drop (x :: xs).length := by
        have := congrArg List.tail hdec
        simpa using this
      have h2 : Count (x :: xs) ((c :: cs).drop (x :: xs).length) ≤ Count (x :: xs) cs := by
        conv_rhs => rw [hcs]
        exact Count_le_append _ _ _
      omega
    · have hp' : (x :: xs).isPrefixOf (c :: cs) = false := Bool.eq_false_iff.mpr hp
      have hA := isPrefixOf_of_Replace1 (x :: xs) v (by simp) hv (c :: cs) (x :: xs) hY
      rw [Replace1_cons_of_not _ _ _ _ hp'] at hA ⊢
      have hq : ¬ (x :: xs).isPrefixOf (c :: Replace1 cs (x :: xs) v) = true :=
        fun hq => hp (hA hq)
      rw [Count, Count, if_neg hq, if_neg hp]
      simpa using ih

theorem Count_eq_zero_iff (Y : Str) (hY : Y ≠ []) : ∀ s : Str, Count Y s = 0 ↔ ¬ Y <:+: s := by
  intro s
  induction s with
  | nil => simp [Count, hY]
  | cons c cs ih =>
    rw [Count, List.infix_cons_iff, not_or, ← ih, ← List.isPrefixOf_iff_prefix]
    by_cases hp : Y.isPrefixOf (c :: cs) = true
    · simp [hp]
    · simp [hp]

/-- Two substitutions commute when neither token is a prefix of the other, the first character
of each token occurs neither in the rest of the other token nor in the other value, and no
character of a value occurs in the other token. -/
theorem Replace1_comm (x y : Char) (xs ys v w : Str)
    (hxy : ¬ (x :: xs) <+: (y :: ys)) (hyx : ¬ (y :: ys) <+: (x :: xs))
    (hyxs : y ∉ xs) (hxys : x ∉ ys) (hyv : y ∉ v) (hxw : x ∉ w)
    (hv : v ≠ []) (hw : w ≠ [])
    (hvY : ∀ c ∈ v, c ∉ y :: ys) (hwX : ∀ c ∈ w, c ∉ x :: xs) :
    ∀ s : Str, Replace1 (Replace1 s (x :: xs) v) (y :: ys) w
      = Replace1 (Replace1 s (y :: ys) w) (x :: xs) v := by
  intro s
  induction s with
  | nil => simp [Replace1_nil]
  | cons c cs ih =>
    by_cases hpx : (x :: xs).isPrefixOf (c :: cs) = true
    · have hpy : (y :: ys).isPrefixOf (c :: cs) = false := by
        rw [Bool.eq_false_iff]
        intro hpy
        rcases List.prefix_or_prefix_of_prefix (List.isPrefixOf_iff_prefix.mp hpx)
          (List.isPrefixOf_iff_prefix.mp hpy) with h | h
        · exact hxy h
        · exact hyx h
      have hdec := eq_append_drop_of_isPrefixOf (x :: xs) _ hpx
      generalize (c :: cs).drop (x :: xs).length = t at hdec
      have hc : c = x ∧ cs = xs ++ t := by simpa using hdec
      obtain ⟨rfl, rfl⟩ := hc
      rw [Replace1_of_isPrefixOf _ _ _ hpx, Replace1_append_of_head_not_mem y ys w v _ hyv,
        Replace1_cons_of_not _ _ _ _ hpy, Replace1_append_of_head_not_mem y ys w xs _ hyxs]
      have hp2 : (c :: xs).isPrefixOf (c :: (xs ++ Replace1 t (y :: ys) w)) = true :=
        List.isPrefixOf_iff_prefix.mpr ⟨_, rfl⟩
      rw [Replace1_of_isPrefixOf _ _ _ hp2]
      simp
    · have hpx' : (x :: xs).isPrefixOf (c :: cs) = false := Bool.eq_false_iff.mpr hpx
      by_cases hpy : (y :: ys).isPrefixOf (c :: cs) = true
      · have hdec := eq_append_drop_of_isPrefixOf (y :: ys) _ hpy
        generalize (c :: cs).drop (y :: ys).length = t at hdec
        have hc : c = y ∧ cs = ys ++ t := by simpa using hdec
        obtain ⟨rfl, rfl⟩ := hc
        rw [Replace1_of_isPrefixOf _ _ _ hpy, Replace1_append_of_head_not_mem x xs v w _ hxw,
          Replace1_cons_of_not _ _ _ _ hpx', Replace1_append_of_head_not_mem x xs v ys _ hxys]
        have hp2 : (c :: ys).isPrefixOf (c :: (ys ++ Replace1 t (x :: xs) v)) = true :=
          List.isPrefixOf_iff_prefix.mpr ⟨_, rfl⟩
        rw [Replace1_of_isPrefixOf _ _ _ hp2]
        simp
      · have hpy' : (y :: ys).isPrefixOf (c :: cs) = false := Bool.eq_false_iff.mpr hpy
        have hAy := isPrefixOf_of_Replace1 (x :: xs) v (by simp) hv (c :: cs) (y :: ys) hvY
        have hAx := isPrefixOf_of_Replace1 (y :: ys) w (by simp) hw (c :: cs) (x :: xs) hwX
        rw [Replace1_cons_of_not _ _ _ _ hpx'] at hAy ⊢
        rw [Replace1_cons_of_not _ _ _ _ hpy'] at hAx ⊢
        have h1 : (y :: ys).isPrefixOf (c :: Replace1 cs (x :: xs) v) = false := by
          rw [Bool.eq_false_iff]; exact fun h => hpy (hAy h)
        have h2 : (x :: xs).isPrefixOf (c :: Replace1 cs (y :: ys) w) = false := by
          rw [Bool.eq_false_iff]; exact fun h => hpx (hAx h)
        rw [Replace1_cons_of_not _ _ _ _ h1, Replace1_cons_of_not _ _ _ _ h2, ih]

/-! ## The seven placeholders -/

theorem placeholder_shape :
    ∀ X ∈ placeholders, X.head? = some '{' ∧ '{' ∉ X.tail ∧ ∀ c ∈ X, isValueChar c = false := by
  decide

theorem placeholder_not_prefix :
    ∀ X ∈ placeholders, ∀ Y ∈ placeholders, X ≠ Y → ¬ X <+: Y := by
  decide

theorem placeholder_eq_cons {X : Str} (hX : X ∈ placeholders) : X = '{' :: X.tail := by
  have h := (placeholder_shape X hX).1
  cases X with
  | nil => simp at h
  | cons x xs =>
    simp only [List.head?_cons, Option.some.injEq] at h
    rw [h]; rfl

theorem brace_not_mem_value {v : Str} (hv : ∀ c ∈ v, isValueChar c = true) : '{' ∉ v := by
  intro hm
  have := hv _ hm
  revert this
  decide

theorem value_char_not_mem_placeholder {v X : Str} (hv : ∀ c ∈ v, isValueChar c = true)
    (hX : X ∈ placeholders) : ∀ c ∈ v, c ∉ X := by
  intro c hc hm
  have h1 := hv c hc
  have h2 := (placeholder_shape X hX).2.2 c hm
  rw [h1] at h2
  cases h2

theorem substitutions_mem {timeNow timeNow2 : Time} {p : Str × Str}
    (hp : p ∈ substitutions timeNow timeNow2) :
    p.1 ∈ placeholders ∧ p.2 ≠ [] ∧ ∀ c ∈ p.2, isValueChar c = true := by
  simp only [substitutions, List.mem_cons, List.mem_singleton, List.not_mem_nil, or_false] at hp
  rcases hp with rfl | rfl | rfl | rfl | rfl | rfl | rfl
  · exact ⟨by dsimp only; decide, appendInt_ne_nil _ _, appendInt_isValueChar _ _⟩
  · exact ⟨by dsimp only; decide, appendInt_ne_nil _ _, appendInt_isValueChar _ _⟩
  · exact ⟨by dsimp only; decide, appendInt_ne_nil _ _, appendInt_isValueChar _ _⟩
  · exact ⟨by dsimp only; decide, appendInt_ne_nil _ _, appendInt_isValueChar _ _⟩
  · exact ⟨by dsimp only; decide, appendInt_ne_nil _ _, appendInt_isValueChar _ _⟩
  · exact ⟨by dsimp only; decide, appendInt_ne_nil _ _, appendInt_isValueChar _ _⟩
  · exact ⟨by dsimp only; decide, FormatInt_ne_nil _, FormatInt_isValueChar _⟩

theorem substitutions_distinct {timeNow timeNow2 : Time} {p q : Str × Str}
    (hp : p ∈ substitutions timeNow timeNow2) (hq : q ∈ substitutions timeNow timeNow2) :
    p = q ∨ p.1 ≠ q.1 := by
  simp only [substitutions, List.mem_cons, List.mem_singleton, List.not_mem_nil, or_false]
    at hp hq
  rcases hp with rfl | rfl | rfl | rfl | rfl | rfl | rfl <;>
    rcases hq with rfl | rfl | rfl | rfl | rfl | rfl | rfl <;>
    first
    | exact Or.inl rfl
    | exact Or.inr (by dsimp only; decide)

theorem substStep_comm (p q : Str × Str) (hp : p.1 ∈ placeholders) (hq : q.1 ∈ placeholders)
    (hne : p.1 ≠ q.1) (hpn : p.2 ≠ []) (hqn : q.2 ≠ [])
    (hpv : ∀ c ∈ p.2, isValueChar c = true) (hqv : ∀ c ∈ q.2, isValueChar c = true) (z : Str) :
    substStep (substStep z p) q = substStep (substStep z q) p := by
  obtain ⟨X, v⟩ := p
  obtain ⟨Y, w⟩ := q
  simp only at hp hq hne hpn hqn hpv hqv
  unfold substStep
  simp only
  have hXs := placeholder_shape X hp
  have hYs := placeholder_shape Y hq
  rw [placeholder_eq_cons hp, placeholder_eq_cons hq]
  apply Replace1_comm
  · rw [← placeholder_eq_cons hp, ← placeholder_eq_cons hq]
    exact placeholder_not_prefix X hp Y hq hne
  · rw [← placeholder_eq_cons hp, ← placeholder_eq_cons hq]
    exact placeholder_not_prefix Y hq X hp (Ne.symm hne)
  · exact hXs.2.1
  · exact hYs.2.1
  · exact brace_not_mem_value hpv
  · exact brace_not_mem_value hqv
  · exact hpn
  · exact hqn
  · rw [← placeholder_eq_cons hq]
    exact value_char_not_mem_placeholder hpv hq
  · rw [← placeholder_eq_cons hp]
    exact value_char_not_mem_placeholder hqv hp

theorem Count_substStep_le (T : Str) (hT : T ∈ placeholders) (p : Str × Str)
    (hp : p.1 ∈ placeholders) (hpn : p.2 ≠ []) (hpv : ∀ c ∈ p.2, isValueChar c = true)
    (s : Str) : Count T (substStep s p) ≤ Count T s := by
  unfold substStep
  have hne : p.1 ≠ [] := by rw [placeholder_eq_cons hp]; simp
  have := Count_Replace1_le p.1 p.2 hne hpn '{' T.tail
    (by rw [← placeholder_eq_cons hT]; exact value_char_not_mem_placeholder hpv hT) s
  rw [← placeholder_eq_cons hT] at this
  exact this

theorem Count_substStep_self (p : Str × Str)
    (hp : p.1 ∈ placeholders) (hpn : p.2 ≠ []) (hpv : ∀ c ∈ p.2, isValueChar c = true)
    (s : Str) : Count p.1 (substStep s p) ≤ Count p.1 s - 1 := by
  unfold substStep
  have := Count_Replace1_self '{' p.1.tail p.2 hpn
    (by rw [← placeholder_eq_cons hp]; exact value_char_not_mem_placeholder hpv hp) s
  rw [← placeholder_eq_cons hp] at this
  exact this

theorem Count_foldl_le (T : Str) (hT : T ∈ placeholders) :
    ∀ (subs : List (Str × Str)),
      (∀ p ∈ subs, p.1 ∈ placeholders ∧ p.2 ≠ [] ∧ ∀ c ∈ p.2, isValueChar c = true) →
      ∀ s : Str, Count T (subs.foldl substStep s) ≤ Count T s := by
  intro subs
  induction subs with
  | nil => intro _ s; exact le_rfl
  | cons p rest ih =>
    intro h s
    have hp := h p (List.mem_cons_self _ _)
    rw [List.foldl_cons]
    exact le_trans (ih (fun q hq => h q (List.mem_cons_of_mem _ hq)) _)
      (Count_substStep_le T hT p hp.1 hp.2.1 hp.2.2 s)

theorem Count_foldl_zero (T : Str) (hT : T ∈ placeholders) :
    ∀ (subs : List (Str × Str)),
      (∀ p ∈ subs, p.1 ∈ placeholders ∧ p.2 ≠ [] ∧ ∀ c ∈ p.2, isValueChar c = true) →
      (∃ p ∈ subs, p.1 = T) →
      ∀ s : Str, Count T s ≤ 1 → Count T (subs.foldl substStep s) = 0 := by
  intro subs
  induction subs with
  | nil => intro _ h; simp at h
  | cons p rest ih =>
    intro h hex s hs
    have hp := h p (List.mem_cons_self _ _)
    have hrest : ∀ q ∈ rest, q.1 ∈ placeholders ∧ q.2 ≠ [] ∧ ∀ c ∈ q.2, isValueChar c = true :=
      fun q hq => h q (List.mem_cons_of_mem _ hq)
    rw [List.foldl_cons]
    by_cases hpT : p.1 = T
    · have h1 := Count_substStep_self p hp.1 hp.2.1 hp.2.2 s
      rw [hpT] at h1
      have h2 := Count_foldl_le T hT rest hrest (substStep s p)
      omega
    · obtain ⟨q, hq, hqT⟩ := hex
      have hq' : q ∈ rest := by
        rcases List.mem_cons.mp hq with e | e
        · exact absurd (e ▸ hqT) hpT
        · exact e
      exact ih hrest ⟨q, hq', hqT⟩ _
        (le_trans (Count_substStep_le T hT p hp.1 hp.2.1 hp.2.2 s) hs)

theorem substitutions_cover (timeNow timeNow2 : Time) :
    ∀ T ∈ placeholders, ∃ p ∈ substitutions timeNow timeNow2, p.1 = T := by
  intro T hT
  simp only [placeholders, List.mem_cons, List.mem_singleton, List.not_mem_nil, or_false] at hT
  rcases hT with rfl | rfl | rfl | rfl | rfl | rfl | rfl <;> simp [substitutions]

theorem decimal_isDigit_of_nonneg_appendInt (x : Int) (width : Nat) (hx : 0 ≤ x) :
    ∀ c ∈ appendInt x width, c.isDigit = true := by
  intro c hc
  unfold appendInt at hc
  rw [if_neg (not_lt.mpr hx)] at hc
  rcases List.mem_append.mp hc with h | h
  · rcases List.mem_append.mp h with h | h
    · simp at h
    · rw [(List.mem_replicate.mp h).2]; decide
  · exact decimalFuel_isDigit _ _ _ h

theorem FormatInt_isDigit_of_nonneg (x : Int) (hx : 0 ≤ x) :
    ∀ c ∈ FormatInt x, c.isDigit = true := by
  intro c hc
  unfold FormatInt at hc
  rw [if_neg (not_lt.mpr hx)] at hc
  exact decimalFuel_isDigit _ _ _ hc

/-- C10: when each of the seven placeholders occurs at most once in the template, the part of
the result of `getFullName` before the appended extension contains none of them.  Every
substituted value is a non-empty string of decimal digits, preceded by a minus sign only for a
negative year or timestamp, so no step leaves or creates a placeholder, and applying the seven
substitutions in any order gives the same string. -/
theorem C10_placeholders_consumed (up : UploaderParams) (timeNow timeNow2 : Time)
    (oriName : Str) (hOnce : ∀ tok ∈ placeholders, Count tok up.PathFormat ≤ 1) :
    getFullName up timeNow timeNow2 oriName =
      (substitutions timeNow timeNow2).foldl substStep up.PathFormat ++ Ext oriName ∧
    (∀ tok ∈ placeholders,
      Count tok ((substitutions timeNow timeNow2).foldl substStep up.PathFormat) = 0 ∧
      ¬ tok <:+: (substitutions timeNow timeNow2).foldl substStep up.PathFormat) ∧
    (∀ p ∈ substitutions timeNow timeNow2, p.2 ≠ [] ∧ ∀ c ∈ p.2, isValueChar c = true) ∧
    (0 ≤ timeNow2.year → 0 ≤ timeNow.unixNano →
      ∀ p ∈ substitutions timeNow timeNow2, ∀ c ∈ p.2, c.isDigit = true) ∧
    (∀ l : List (Str × Str), l.Perm (substitutions timeNow timeNow2) →
      l.foldl substStep up.PathFormat
        = (substitutions timeNow timeNow2).foldl substStep up.PathFormat) := by
  refine ⟨getFullName_eq_foldl up timeNow timeNow2 oriName, ?_, ?_, ?_, ?_⟩
  · intro tok htok
    have h0 := Count_foldl_zero tok htok (substitutions timeNow timeNow2)
      (fun p hp => substitutions_mem hp) (substitutions_cover timeNow timeNow2 tok htok)
      up.PathFormat (hOnce tok htok)
    have hne : tok ≠ [] := by rw [placeholder_eq_cons htok]; simp
    exact ⟨h0, (Count_eq_zero_iff tok hne _).mp h0⟩
  · intro p hp
    exact (substitutions_mem hp).2
  · intro hy hn p hp
    simp only [substitutions, List.mem_cons, List.mem_singleton, List.not_mem_nil, or_false]
      at hp
    rcases hp with rfl | rfl | rfl | rfl | rfl | rfl | rfl
    · exact decimal_isDigit_of_nonneg_appendInt _ _ hy
    · exact decimal_isDigit_of_nonneg_appendInt _ _ (Int.ofNat_nonneg _)
    · exact decimal_isDigit_of_nonneg_appendInt _ _ (Int.ofNat_nonneg _)
    · exact decimal_isDigit_of_nonneg_appendInt _ _ (Int.ofNat_nonneg _)
    · exact decimal_isDigit_of_nonneg_appendInt _ _ (Int.ofNat_nonneg _)
    · exact decimal_isDigit_of_nonneg_appendInt _ _ (Int.ofNat_nonneg _)
    · exact FormatInt_isDigit_of_nonneg _ hn
  · intro l hl
    refine (List.Perm.foldl_eq' hl.symm ?_ up.PathFormat).symm
    intro x hx y hy z
    rcases substitutions_distinct hx hy with e | e
    · rw [e]
    · have h1 := substitutions_mem hx
      have h2 := substitutions_mem hy
      exact substStep_comm x y h1.1 h2.1 e h1.2.1 h2.2.1 h1.2.2 h2.2.2 z

/-- C10, applied to a template that holds every placeholder once. -/
theorem C10_placeholders_consumed_witness :
    (∀ tok ∈ placeholders,
      Count tok ((substitutions sampleTime sampleTime).foldl substStep
        fullTemplateParams.PathFormat) = 0 ∧
      ¬ tok <:+: (substitutions sampleTime sampleTime).foldl substStep
        fullTemplateParams.PathFormat) ∧
    (∀ p ∈ substitutions sampleTime sampleTime, ∀ c ∈ p.2, c.isDigit = true) :=
  ⟨(C10_placeholders_consumed fullTemplateParams sampleTime sampleTime "photo.JPG".toList
      (by decide)).2.1,
   (C10_placeholders_consumed fullTemplateParams sampleTime sampleTime "photo.JPG".toList
      (by decide)).2.2.2.1 (by decide) (by decide)⟩

end Gueditor
